import Mathlib

/-!
Verification of the invoice export and template rendering subsystems.

Shallow embedding of src/server/accounting_export.py and
src/server/template_processor.py. Python dictionaries carrying invoice
data are embedded as a structure with typed fields; numbers are embedded
as Rat (Python floats are treated as exact rationals); fallible code
(date parsing, JSON decoding, the format dispatch) returns Except.
The wall clock read by datetime.now in the QuickBooks exporter is made
an explicit pair of string parameters, so clock dependence is visible
in the model.
-/

/-! ## Basic character and string utilities -/

/-- Left brace character, written via its code point. -/
def lbrace : Char := Char.ofNat 123

/-- Right brace character, written via its code point. -/
def rbrace : Char := Char.ofNat 125

/-- Decimal digit rendering of a natural number, fuel-based so that it is
kernel-reducible. Accumulates digits from the least significant end. -/
def natStrAux : Nat → Nat → List Char → List Char
  | 0, _, acc => acc
  | _ + 1, 0, acc => acc
  | fuel + 1, n, acc => natStrAux fuel (n / 10) (Char.ofNat (48 + n % 10) :: acc)

/-- Decimal rendering of a natural number, as Python str renders an int. -/
def natStr (n : Nat) : String :=
  if n = 0 then "0" else String.mk (natStrAux (n + 1) n [])

/-- Decimal rendering of an integer, as Python str renders an int. -/
def intStr (n : Int) : String :=
  if n < 0 then "-" ++ natStr n.natAbs else natStr n.natAbs

/-- Two digit zero padded rendering, as strftime %m, %d produce. -/
def pad2 (n : Nat) : String := if n < 10 then "0" ++ natStr n else natStr n

/-- Four digit zero padded rendering, as strftime %Y produces. -/
def pad4 (n : Nat) : String :=
  if n < 10 then "000" ++ natStr n
  else if n < 100 then "00" ++ natStr n
  else if n < 1000 then "0" ++ natStr n
  else natStr n

/-- Numeric value of a decimal digit character. -/
def digitVal (c : Char) : Nat := c.toNat - 48

/-- Value of a big-endian list of decimal digit characters. -/
def decodeNatChars (cs : List Char) : Nat :=
  cs.foldl (fun a c => 10 * a + digitVal c) 0

/-- Smallest exponent k below 31 with d dividing 10 ^ k, when one exists.
Used to render a rational with a finite decimal expansion the way Python
renders the corresponding float. -/
def decExp (d : Nat) : Option Nat :=
  (List.range 31).find? (fun k => 10 ^ k % d = 0)

/-- Zero pad a digit string on the left to length k. -/
def padZeros (k : Nat) (cs : List Char) : List Char :=
  List.replicate (k - cs.length) (Char.ofNat 48) ++ cs

/-- Decimal rendering of a rational, as Python str renders the number held
in an invoice field: integers without a decimal point, other values with
their finite decimal expansion. Rationals with no finite decimal
expansion (which cannot arise from JSON input) fall back to a fraction
rendering. -/
def numStr (q : Rat) : String :=
  if q.den = 1 then intStr q.num
  else
    match decExp q.den with
    | some k =>
      let a : Nat := q.num.natAbs * (10 ^ k / q.den)
      (if q.num < 0 then "-" else "") ++ natStr (a / 10 ^ k) ++ "." ++
        String.mk (padZeros k (natStr (a % 10 ^ k)).data)
    | none => intStr q.num ++ "/" ++ natStr q.den

/-- Floor of a rational as an integer. -/
def ratFloor (q : Rat) : Int := Int.fdiv q.num (q.den : Int)

/-- Round a rational to the nearest integer, ties to even, as Python
round-half-even formatting behaves on exactly representable values. -/
def roundHalfEvenQ (q : Rat) : Int :=
  let f := ratFloor q
  let r := q - (f : Rat)
  if r < 1 / 2 then f
  else if 1 / 2 < r then f + 1
  else if f % 2 = 0 then f else f + 1

/-- Fixed two decimal rendering of a rational, embedding the Python
format specification .2f on the value. -/
def formatRat2 (q : Rat) : String :=
  let n := roundHalfEvenQ (q * 100)
  let a := n.natAbs
  (if n < 0 then "-" else "") ++ natStr (a / 100) ++ "." ++ pad2 (a % 100)

/-- Uppercasing of a string, embedding Python str.upper on ASCII text. -/
def upperStr (s : String) : String := String.mk (s.data.map Char.toUpper)

/-- Title casing helper: a letter is uppercased when the previous character
was not a letter, lowercased otherwise; other characters pass through. -/
def titleAux : Bool → List Char → List Char
  | _, [] => []
  | prevAlpha, c :: t =>
    (if c.isAlpha then (if prevAlpha then c.toLower else c.toUpper) else c) ::
      titleAux c.isAlpha t

/-- Title casing of a string, embedding Python str.title on ASCII text. -/
def titleStr (s : String) : String := String.mk (titleAux false s.data)

/-- CSV field quoting as csv.writer with QUOTE_MINIMAL performs it: a field
containing a comma, quote or line break is wrapped in quotes with inner
quotes doubled. -/
def csvQuote (s : String) : String :=
  if s.data.any (fun c => c = ',' ∨ c = '"' ∨ c = '\n' ∨ c = '\r') then
    "\"" ++ String.mk (s.data.flatMap (fun c => if c = '"' then ['"', '"'] else [c])) ++ "\""
  else s

/-- One CSV record: quoted fields joined by commas with the CRLF terminator
csv.writer emits. -/
def csvLine (fields : List String) : String :=
  String.intercalate "," (fields.map csvQuote) ++ "\r\n"

/-! ## Dates

Embedding of datetime.fromisoformat applied after the source replaces
every Z with +00:00, followed by strftime with the three date patterns
the exporters use. Only the calendar date is retained since only date
components are formatted. -/

/-- Calendar date. -/
structure Date where
  y : Nat
  m : Nat
  d : Nat
deriving DecidableEq

/-- Replacement of every Z by +00:00, embedding the str.replace call the
source applies before parsing. -/
def replaceZ : List Char → List Char
  | [] => []
  | c :: t =>
    if c = 'Z' then '+' :: '0' :: '0' :: ':' :: '0' :: '0' :: replaceZ t
    else c :: replaceZ t

/-- Read exactly two decimal digits. -/
def read2 : List Char → Option (Nat × List Char)
  | a :: b :: t =>
    if a.isDigit ∧ b.isDigit then some (10 * digitVal a + digitVal b, t) else none
  | _ => none

/-- Read exactly four decimal digits. -/
def read4 : List Char → Option (Nat × List Char)
  | a :: b :: c :: d :: t =>
    if a.isDigit ∧ b.isDigit ∧ c.isDigit ∧ d.isDigit then
      some (1000 * digitVal a + 100 * digitVal b + 10 * digitVal c + digitVal d, t)
    else none
  | _ => none

/-- Validity of a UTC offset tail of the form sign HH:MM. -/
def offsetOk : List Char → Bool
  | c :: t =>
    (c == '+' || c == '-') &&
      match read2 t with
      | some (h, ':' :: r2) =>
        match read2 r2 with
        | some (mi, r3) => decide (h < 24) && decide (mi < 60) && r3.isEmpty
        | none => false
      | _ => false
  | [] => false

/-- Validity of what may follow a time component: nothing or an offset. -/
def endOrOffset (cs : List Char) : Bool := cs.isEmpty || offsetOk cs

/-- Validity of an ISO time part HH with optional :MM, :SS, fraction and
offset, as datetime.fromisoformat accepts. -/
def timePartOk (cs : List Char) : Bool :=
  match read2 cs with
  | some (hh, rest) =>
    decide (hh < 24) &&
      match rest with
      | [] => true
      | ':' :: r1 =>
        match read2 r1 with
        | some (mm, rest2) =>
          decide (mm < 60) &&
            match rest2 with
            | ':' :: r2 =>
              match read2 r2 with
              | some (ss, rest3) =>
                decide (ss < 60) &&
                  match rest3 with
                  | '.' :: r3 =>
                    let fs := r3.takeWhile Char.isDigit
                    let r4 := r3.dropWhile Char.isDigit
                    (decide (fs.length = 3) || decide (fs.length = 6)) && endOrOffset r4
                  | other => endOrOffset other
              | none => false
            | other => endOrOffset other
        | none => false
      | other => endOrOffset other
  | none => false

/-- Leap year aware month length. -/
def daysInMonth (y m : Nat) : Nat :=
  if m = 2 then (if (y % 4 = 0 ∧ y % 100 ≠ 0) ∨ y % 400 = 0 then 29 else 28)
  else if m = 4 ∨ m = 6 ∨ m = 9 ∨ m = 11 then 30 else 31

/-- Validity of the tail after the date: empty, or a T or space separator
followed by a valid time part. -/
def timeTailOk : List Char → Bool
  | [] => true
  | c :: t => (c == 'T' || c == ' ') && timePartOk t

/-- Parse an ISO 8601 timestamp down to its calendar date, embedding
datetime.fromisoformat: strict YYYY-MM-DD with a validated optional time
part. Returns none exactly when fromisoformat raises ValueError. -/
def parseDate (cs : List Char) : Option Date :=
  match read4 cs with
  | some (y, '-' :: r1) =>
    match read2 r1 with
    | some (m, '-' :: r2) =>
      match read2 r2 with
      | some (d, rest) =>
        if 1 ≤ m ∧ m ≤ 12 ∧ 1 ≤ d ∧ d ≤ daysInMonth y m ∧ timeTailOk rest then
          some ⟨y, m, d⟩
        else none
      | none => none
    | _ => none
  | _ => none

/-- Parse a date field of an invoice: every Z is first replaced by +00:00
as in the source, then the string is parsed; failure carries the
ValueError message fromisoformat raises. -/
def parseDateE (s : String) : Except String Date :=
  match parseDate (replaceZ s.data) with
  | some dt => .ok dt
  | none => .error ("Invalid isoformat string: '" ++ String.mk (replaceZ s.data) ++ "'")

/-- Month first date rendering, strftime pattern %m/%d/%Y. -/
def fmtMDY (dt : Date) : String := pad2 dt.m ++ "/" ++ pad2 dt.d ++ "/" ++ pad4 dt.y

/-- Day first date rendering, strftime pattern %d/%m/%Y. -/
def fmtDMY (dt : Date) : String := pad2 dt.d ++ "/" ++ pad2 dt.m ++ "/" ++ pad4 dt.y

/-- Year first date rendering, strftime pattern %Y-%m-%d. -/
def fmtYMD (dt : Date) : String := pad4 dt.y ++ "-" ++ pad2 dt.m ++ "-" ++ pad2 dt.d

/-! ## Data model -/

/-- Line item of an invoice: the dictionary shape name, description,
quantity, rate, amount the source reads, with description optional as
item.get uses a default for it. -/
structure Item where
  name : String
  description : Option String
  quantity : Int
  rate : Rat
  amount : Rat
deriving DecidableEq

/-- Items field of an invoice: either a literal sequence or a JSON encoded
string, the two representations the source accepts. -/
inductive ItemsField where
  | lit (l : List Item)
  | str (s : String)
deriving DecidableEq

/-- Invoice record as the exporters read it: fields accessed by
subscription are required, fields accessed through .get are optional. -/
structure Invoice where
  invoiceNumber : String
  clientName : String
  clientEmail : String
  addressLine1 : String
  city : String
  country : String
  invoiceDate : String
  dueDate : String
  subtotal : Rat
  discount : Option Rat
  vat : Option Rat
  total : Rat
  status : String
  notes : Option String
  items : ItemsField
deriving DecidableEq

/-! ## JSON items encoding and decoding

The source calls json.dumps to embed a literal items sequence and
json.loads to accept a string one. The embedding below covers the JSON
fragment those calls exchange for item lists: an array of flat objects
with the item keys in their dictionary order, double quoted strings
without escape sequences, and integer or finite decimal numbers. Strings
containing quotes, backslashes or control characters and numbers without
a finite decimal expansion are outside the modelled fragment; the round
trip theorems carry a well-formedness hypothesis excluding them. -/

/-- Characters of a JSON string literal without escape processing. -/
def jstrChars (s : String) : List Char := '"' :: s.data ++ ['"']

/-- Item separator characters json.dumps places between members. -/
def sepChars : List Char := [',', ' ']

/-- Characters of a JSON object key with its colon separator. -/
def keyChars (k : String) : List Char := jstrChars k ++ [':', ' ']

/-- Characters of the JSON object for one item with the separators
json.dumps uses, the description key present only when the item carries
one. -/
def dumpItemChars (it : Item) : List Char :=
  lbrace :: (keyChars "name" ++ jstrChars it.name ++
    (match it.description with
     | some d => sepChars ++ keyChars "description" ++ jstrChars d
     | none => []) ++
    sepChars ++ keyChars "quantity" ++ (intStr it.quantity).data ++
    sepChars ++ keyChars "rate" ++ (numStr it.rate).data ++
    sepChars ++ keyChars "amount" ++ (numStr it.amount).data ++ [rbrace])

/-- Characters of the comma separated object list json.dumps builds. -/
def dumpListChars : List Item → List Char
  | [] => []
  | [it] => dumpItemChars it
  | it :: rest => dumpItemChars it ++ sepChars ++ dumpListChars rest

/-- JSON array rendering of an item list, embedding json.dumps. -/
def dumpsItems (l : List Item) : String := String.mk ('[' :: dumpListChars l ++ [']'])

/-- Plain string predicate: no double quote character, so the modelled
escape free JSON quoting round trips the string. -/
def plainStr (s : String) : Prop := ∀ c ∈ s.data, c ≠ '"'

/-- Rational with a finite decimal rendering in the modelled range, the
shape every number arriving through JSON has. -/
def decimalRat (q : Rat) : Prop := q.den = 1 ∨ (decExp q.den).isSome

/-- Plainness of an optional description. -/
def descWF : Option String → Prop
  | none => True
  | some d => plainStr d

/-- Well formed item for the JSON round trip: plain strings and decimal
valued rate and amount. -/
def itemWF (it : Item) : Prop :=
  plainStr it.name ∧ descWF it.description ∧ decimalRat it.rate ∧ decimalRat it.amount

/-- Well formed item list. -/
def itemsWF (l : List Item) : Prop := ∀ it ∈ l, itemWF it

instance decPlainStr (s : String) : Decidable (plainStr s) :=
  inferInstanceAs (Decidable (∀ c ∈ s.data, c ≠ '"'))

instance decDecimalRat (q : Rat) : Decidable (decimalRat q) :=
  inferInstanceAs (Decidable (q.den = 1 ∨ (decExp q.den).isSome))

instance decDescWF (o : Option String) : Decidable (descWF o) :=
  match o with
  | none => inferInstanceAs (Decidable True)
  | some d => inferInstanceAs (Decidable (plainStr d))

instance decItemWF (it : Item) : Decidable (itemWF it) :=
  inferInstanceAs (Decidable (_ ∧ _ ∧ _ ∧ _))

instance decItemsWF (l : List Item) : Decidable (itemsWF l) :=
  inferInstanceAs (Decidable (∀ it ∈ l, itemWF it))

/-- Boundary condition after an integer literal: the remainder must not
begin with a digit. -/
def noDigitHead : List Char → Prop
  | [] => True
  | c :: _ => c.isDigit = false

/-- Boundary condition after a number literal: the remainder must not
begin with a digit or a decimal point. -/
def numBoundary : List Char → Prop
  | [] => True
  | c :: _ => c.isDigit = false ∧ c ≠ '.'

/-- Whitespace test for the four JSON whitespace characters. -/
def isJsonSpace (c : Char) : Bool := c == ' ' || c == '\t' || c == '\n' || c == '\r'

/-- Skip JSON whitespace. -/
def skipSpaces (cs : List Char) : List Char := cs.dropWhile isJsonSpace

/-- Expect one character after optional whitespace. -/
def expectChar (c : Char) (cs : List Char) : Except String (List Char) :=
  match skipSpaces cs with
  | d :: t => if d = c then .ok t else .error "invalid items JSON"
  | [] => .error "invalid items JSON"

/-- Parse a JSON string literal without escape processing. -/
def parseJString (cs : List Char) : Except String (String × List Char) :=
  match cs with
  | c :: rest =>
    if c = '"' then
      match rest.dropWhile (fun c => c ≠ '"') with
      | _ :: rest2 => .ok (String.mk (rest.takeWhile (fun c => c ≠ '"')), rest2)
      | [] => .error "invalid items JSON"
    else .error "invalid items JSON"
  | [] => .error "invalid items JSON"

/-- Parse a key after optional whitespace and require the given name and
its following colon. -/
def parseKey (k : String) (cs : List Char) : Except String (List Char) := do
  let (s, r) ← parseJString (skipSpaces cs)
  if s = k then expectChar ':' r else .error "invalid items JSON"

/-- Parse an optionally signed integer literal. -/
def parseIntTok (cs : List Char) : Except String (Int × List Char) :=
  match cs with
  | c :: t =>
    if c = '-' then
      let ds := t.takeWhile Char.isDigit
      if ds.isEmpty then .error "invalid items JSON"
      else .ok (-(decodeNatChars ds : Int), t.dropWhile Char.isDigit)
    else
      let ds := cs.takeWhile Char.isDigit
      if ds.isEmpty then .error "invalid items JSON"
      else .ok ((decodeNatChars ds : Int), cs.dropWhile Char.isDigit)
  | [] => .error "invalid items JSON"

/-- Parse a JSON number as a rational: optional sign, integer digits and
an optional fraction part. -/
def parseNumber (cs : List Char) : Except String (Rat × List Char) :=
  let signSplit : Bool × List Char :=
    match cs with
    | c :: t => if c = '-' then (true, t) else (false, cs)
    | [] => (false, cs)
  let neg := signSplit.1
  let cs1 := signSplit.2
  let ds := cs1.takeWhile Char.isDigit
  let cs2 := cs1.dropWhile Char.isDigit
  if ds.isEmpty then .error "invalid items JSON"
  else
    let ip : Nat := decodeNatChars ds
    match cs2 with
    | '.' :: t =>
      let fs := t.takeWhile Char.isDigit
      let cs3 := t.dropWhile Char.isDigit
      if fs.isEmpty then .error "invalid items JSON"
      else
        let q : Rat := (ip : Rat) + (decodeNatChars fs : Rat) / ((10 : Rat) ^ fs.length)
        .ok (if neg then -q else q, cs3)
    | other => .ok (if neg then -(ip : Rat) else (ip : Rat), other)

/-- Parse the quantity, rate and amount keys and the closing brace of an
item object, the common tail after the optional description key. -/
def parseItemRest (nm : String) (dsc : Option String) (cs : List Char) :
    Except String (Item × List Char) := do
  let r1 ← parseKey "quantity" cs
  let (q, r2) ← parseIntTok (skipSpaces r1)
  let r3 ← expectChar ',' r2
  let r4 ← parseKey "rate" r3
  let (rt, r5) ← parseNumber (skipSpaces r4)
  let r6 ← expectChar ',' r5
  let r7 ← parseKey "amount" r6
  let (am, r8) ← parseNumber (skipSpaces r7)
  let r9 ← expectChar rbrace r8
  .ok ({ name := nm, description := dsc, quantity := q, rate := rt, amount := am }, r9)

/-- Parse one item object. -/
def parseItem (cs : List Char) : Except String (Item × List Char) := do
  let r0 ← expectChar lbrace cs
  let r1 ← parseKey "name" r0
  let (nm, r2) ← parseJString (skipSpaces r1)
  let r3 ← expectChar ',' r2
  let (k, rk) ← parseJString (skipSpaces r3)
  let rk1 ← expectChar ':' rk
  if k = "description" then do
    let (d, r4) ← parseJString (skipSpaces rk1)
    let r5 ← expectChar ',' r4
    parseItemRest nm (some d) r5
  else if k = "quantity" then do
    let (q, r2b) ← parseIntTok (skipSpaces rk1)
    let r3b ← expectChar ',' r2b
    let r4b ← parseKey "rate" r3b
    let (rt, r5b) ← parseNumber (skipSpaces r4b)
    let r6b ← expectChar ',' r5b
    let r7b ← parseKey "amount" r6b
    let (am, r8b) ← parseNumber (skipSpaces r7b)
    let r9b ← expectChar rbrace r8b
    .ok ({ name := nm, description := none, quantity := q, rate := rt, amount := am }, r9b)
  else .error "invalid items JSON"

/-- Parse a nonempty comma separated item sequence up to and including
the closing bracket, with fuel bounding the number of items. -/
def parseItemsAux : Nat → List Char → Except String (List Item × List Char)
  | 0, _ => .error "invalid items JSON"
  | fuel + 1, cs => do
    let (it, r1) ← parseItem cs
    match skipSpaces r1 with
    | c :: t =>
      if c = ',' then do
        let (its, r2) ← parseItemsAux fuel t
        .ok (it :: its, r2)
      else if c = ']' then .ok ([it], t)
      else .error "invalid items JSON"
    | [] => .error "invalid items JSON"

/-- Parse a JSON item array, requiring the whole string to be consumed,
embedding json.loads on the modelled fragment. -/
def parseItemsJson (s : String) : Except String (List Item) := do
  let r0 ← expectChar '[' s.data
  match skipSpaces r0 with
  | c :: t =>
    if c = ']' then
      if (skipSpaces t).isEmpty then .ok [] else .error "invalid items JSON"
    else do
      let (its, r1) ← parseItemsAux (s.data.length + 1) r0
      if (skipSpaces r1).isEmpty then .ok its else .error "invalid items JSON"
  | [] => .error "invalid items JSON"

/-! ## Export mapper, from src/server/accounting_export.py -/

/-- Items normalization the exporters perform: a string field is decoded
with json.loads, a literal sequence is used as given. -/
def getItems (inv : Invoice) : Except String (List Item) :=
  match inv.items with
  | .lit l => .ok l
  | .str s => parseItemsJson s

/-- Error propagating map over a list, embedding a Python loop whose body
may raise: the first failure aborts the whole call and its buffered
output is discarded. -/
def mapE (f : α → Except String β) : List α → Except String (List β)
  | [] => .ok []
  | x :: xs => do
    let y ← f x
    let ys ← mapE f xs
    .ok (y :: ys)

/-- Join of rendered CSV records. -/
def joinLines (rows : List (List String)) : String :=
  String.join (rows.map csvLine)

/-- VAT amount derivation shared by the Sage and generic exporters:
vat / 100 * subtotal when the vat field is truthy, zero otherwise. -/
def vatAmount (inv : Invoice) : Rat :=
  match inv.vat with
  | some v => if v ≠ 0 then v / 100 * inv.subtotal else 0
  | none => 0

/-- Transaction amount the QuickBooks TRNS record carries: the total
field of the invoice, taken as given and not recomputed from items. -/
def iifTrnsValue (inv : Invoice) : Rat := inv.total

/-- Numeric value of the amount field of a QuickBooks SPL record: the
negation of the item amount, as the minus sign the source prepends
denotes for the nonnegative amounts of well formed invoices. -/
def iifSplitValue (it : Item) : Rat := -it.amount

/-- TRNS line of the QuickBooks export for one invoice. -/
def iifTrnsLine (inv : Invoice) (d dd : Date) : String :=
  "TRNS\tINVOICE\t" ++ fmtMDY d ++ "\tAccounts Receivable\t" ++ inv.clientName ++
    "\t\t" ++ numStr (iifTrnsValue inv) ++ "\t" ++ inv.invoiceNumber ++ "\t\tN\tY\t" ++
    inv.addressLine1 ++ "\t" ++ inv.city ++ "\t" ++ inv.country ++ "\t\t\t" ++
    fmtMDY dd ++ "\tNet 30\tN\t"

/-- SPL line of the QuickBooks export for one item. -/
def iifSplLine (inv : Invoice) (d : Date) (it : Item) : String :=
  "SPL\t" ++ fmtMDY d ++ "\tSales\t" ++ inv.clientName ++ "\t\t-" ++ numStr it.amount ++
    "\t" ++ inv.invoiceNumber ++ "\t" ++ it.name ++ ": " ++ it.description.getD "" ++
    "\tN\tY"

/-- Lines contributed by one invoice to the QuickBooks export: the
transaction record followed by one split per item, with the two date
parses and the items normalization in source order. -/
def iifInvoiceLines (inv : Invoice) : Except String (List String) := do
  let d ← parseDateE inv.invoiceDate
  let dd ← parseDateE inv.dueDate
  let items ← getItems inv
  .ok (iifTrnsLine inv d dd :: items.map (iifSplLine inv d))

/-- QuickBooks IIF export: two header lines carrying the current date and
time, the column header, the per invoice blocks and the single ENDTRNS
terminator, joined by newlines. -/
def export_to_quickbooks_iif (nowDate nowTime : String) (invoices : List Invoice) :
    Except String String := do
  let blocks ← mapE iifInvoiceLines invoices
  .ok (String.intercalate "\n"
    (["!HDR\tPROD\tVER\tREL\tIIFVER\tDATE\tTIME\tACCNT",
      "HDR\tQuickBooks Pro\t2023\tRelease\t1\t" ++ nowDate ++ "\t" ++ nowTime ++ "\tN",
      "!TRNS\tTRNSTYPE\tDATE\tACCNT\tNAME\tCLASS\tAMOUNT\tDOCNUM\tMEMO\tCLEAR\tTOPRINT\tNAMEADDR1\tNAMEADDR2\tNAMEADDR3\tNAMEADDR4\tNAMEADDR5\tDUEDATE\tTERMS\tPAID\tSHIPDATE"]
      ++ blocks.flatten ++ ["ENDTRNS"]))

/-- Field names of the Xero CSV export. -/
def xeroFields : List String :=
  ["ContactName", "EmailAddress", "POAddressLine1", "POCity", "POCountry",
   "InvoiceNumber", "InvoiceDate", "DueDate", "Total", "Status",
   "Description", "Quantity", "UnitAmount", "AccountCode", "TaxType"]

/-- One Xero CSV row for an invoice and item pair. -/
def xeroRow (inv : Invoice) (it : Item) : Except String (List String) := do
  let d ← parseDateE inv.invoiceDate
  let dd ← parseDateE inv.dueDate
  .ok [inv.clientName, inv.clientEmail, inv.addressLine1, inv.city, inv.country,
       inv.invoiceNumber, fmtDMY d, fmtDMY dd, numStr inv.total, upperStr inv.status,
       it.name ++ ": " ++ it.description.getD "", intStr it.quantity, numStr it.rate,
       "200", "GST"]

/-- Rows contributed by one invoice to the Xero export: the items are
normalized first, then one row per item with the dates parsed per row. -/
def xeroInvoiceRows (inv : Invoice) : Except String (List (List String)) := do
  let items ← getItems inv
  mapE (xeroRow inv) items

/-- Xero CSV export. -/
def export_to_xero_csv (invoices : List Invoice) : Except String String := do
  let blocks ← mapE xeroInvoiceRows invoices
  .ok (csvLine xeroFields ++ joinLines blocks.flatten)

/-- Field names of the Sage CSV export. -/
def sageFields : List String :=
  ["Customer", "Invoice_No", "Date", "Due_Date", "Reference",
   "Description", "Net_Amount", "Tax_Amount", "Total_Amount", "Status", "Currency"]

/-- One Sage CSV row for an invoice. -/
def sageRow (inv : Invoice) : Except String (List String) := do
  let d ← parseDateE inv.invoiceDate
  let dd ← parseDateE inv.dueDate
  .ok [inv.clientName, inv.invoiceNumber, fmtDMY d, fmtDMY dd, inv.invoiceNumber,
       "Invoice for " ++ inv.clientName, numStr inv.subtotal,
       formatRat2 (vatAmount inv), numStr inv.total, titleStr inv.status, "USD"]

/-- Sage CSV export. -/
def export_to_sage_csv (invoices : List Invoice) : Except String String := do
  let rows ← mapE sageRow invoices
  .ok (csvLine sageFields ++ joinLines rows)

/-- Field names of the Wave CSV export. -/
def waveFields : List String :=
  ["Customer name", "Customer email", "Invoice number", "Invoice date",
   "Due date", "Product/Service", "Description", "Quantity", "Rate",
   "Amount", "Tax name", "Tax rate", "Invoice total", "Invoice status"]

/-- Tax name field of a Wave row: VAT when the vat field is truthy and
positive, blank otherwise. -/
def waveTaxName (inv : Invoice) : String :=
  match inv.vat with
  | some v => if v ≠ 0 ∧ 0 < v then "VAT" else ""
  | none => ""

/-- Tax rate field of a Wave row: the vat value with a percent sign when
the vat field is truthy, blank otherwise. -/
def waveTaxRate (inv : Invoice) : String :=
  match inv.vat with
  | some v => if v ≠ 0 then numStr v ++ "%" else ""
  | none => ""

/-- One Wave CSV row for an invoice and the item at position i: the
invoice total appears only on the first item row. -/
def waveRow (inv : Invoice) (i : Nat) (it : Item) : Except String (List String) := do
  let d ← parseDateE inv.invoiceDate
  let dd ← parseDateE inv.dueDate
  .ok [inv.clientName, inv.clientEmail, inv.invoiceNumber, fmtYMD d, fmtYMD dd,
       it.name, it.description.getD "", intStr it.quantity, formatRat2 it.rate,
       formatRat2 it.amount, waveTaxName inv, waveTaxRate inv,
       if i = 0 then numStr inv.total else "", titleStr inv.status]

/-- Indexed pairing of a list, embedding the enumerate of the item loop. -/
def enumFrom (i : Nat) : List α → List (Nat × α)
  | [] => []
  | x :: xs => (i, x) :: enumFrom (i + 1) xs

/-- Rows contributed by one invoice to the Wave export. -/
def waveInvoiceRows (inv : Invoice) : Except String (List (List String)) := do
  let items ← getItems inv
  mapE (fun p => waveRow inv p.1 p.2) (enumFrom 0 items)

/-- Wave CSV export. -/
def export_to_wave_csv (invoices : List Invoice) : Except String String := do
  let blocks ← mapE waveInvoiceRows invoices
  .ok (csvLine waveFields ++ joinLines blocks.flatten)

/-- Field names of the generic CSV export. -/
def genericFields : List String :=
  ["Invoice Number", "Client Name", "Client Email", "Invoice Date",
   "Due Date", "Subtotal", "Discount", "Tax Rate", "Tax Amount",
   "Total", "Status", "Notes", "Items JSON"]

/-- Items JSON field of the generic export: a string items field passes
through verbatim, a literal sequence is rendered with json.dumps. -/
def itemsJsonField (inv : Invoice) : String :=
  match inv.items with
  | .str s => s
  | .lit l => dumpsItems l

/-- One generic CSV row for an invoice. -/
def genericRow (inv : Invoice) : Except String (List String) := do
  let d ← parseDateE inv.invoiceDate
  let dd ← parseDateE inv.dueDate
  .ok [inv.invoiceNumber, inv.clientName, inv.clientEmail, fmtYMD d, fmtYMD dd,
       numStr inv.subtotal,
       (match inv.discount with | some dc => numStr dc | none => "0"),
       (match inv.vat with | some v => numStr v | none => "0") ++ "%",
       formatRat2 (vatAmount inv), numStr inv.total, titleStr inv.status,
       inv.notes.getD "", itemsJsonField inv]

/-- Generic CSV export, the flat summary fallback format. -/
def export_to_generic_csv (invoices : List Invoice) : Except String String := do
  let rows ← mapE genericRow invoices
  .ok (csvLine genericFields ++ joinLines rows)

/-- Supported format names, as listed by the exporter constructor. -/
def supported_formats : List String :=
  ["quickbooks_iif", "xero_csv", "sage_csv", "freshbooks_csv", "wave_csv", "generic_csv"]

/-- Export dispatch: an unsupported format fails fast with ValueError,
otherwise the named mapper runs, with the final else arm falling back to
the generic CSV mapper. The two clock strings parameterize the
datetime.now reads of the QuickBooks mapper. -/
def export_invoices (nowDate nowTime : String) (invoices : List Invoice)
    (format_type : String) : Except String String :=
  if format_type ∉ supported_formats then
    .error ("Unsupported format: " ++ format_type)
  else if format_type = "quickbooks_iif" then
    export_to_quickbooks_iif nowDate nowTime invoices
  else if format_type = "xero_csv" then export_to_xero_csv invoices
  else if format_type = "sage_csv" then export_to_sage_csv invoices
  else if format_type = "wave_csv" then export_to_wave_csv invoices
  else if format_type = "generic_csv" then export_to_generic_csv invoices
  else export_to_generic_csv invoices

/-! ## Template renderer, from src/server/template_processor.py

Tables are embedded as lists of rows, a row as the list of its cell
texts. Token substitution takes the field mapping as a lookup function;
the source passes a dictionary whose values are already strings. -/

/-- Word character test of the regex class w on ASCII text. -/
def isWordChar (c : Char) : Bool := c.isAlphanum || c == '_'

/-- Replacement text for one matched token: the mapped value when the
name is found, the original spelling with its delimiters otherwise. -/
def tokenRepl (lk : String → Option String) (w : List Char) : List Char :=
  match lk (String.mk w) with
  | some v => v.data
  | none => lbrace :: lbrace :: w ++ [rbrace, rbrace]

/-- Leftmost scan of re.sub with the token pattern: at each position a
match requires two braces, a nonempty word and two closing braces;
otherwise one character is emitted and the scan moves on. Fuel bounds
the recursion and is kernel friendly; every call site passes the input
length, which the scan never exceeds. -/
def substAux (lk : String → Option String) : Nat → List Char → List Char
  | _, [] => []
  | 0, cs => cs
  | fuel + 1, c :: rest =>
    if c = lbrace then
      match rest with
      | [] => [c]
      | c2 :: rest2 =>
        if c2 = lbrace then
          let w := rest2.takeWhile isWordChar
          match w, rest2.dropWhile isWordChar with
          | [], _ => c :: substAux lk fuel rest
          | _ :: _, d1 :: d2 :: rest4 =>
            if d1 = rbrace ∧ d2 = rbrace then
              tokenRepl lk w ++ substAux lk fuel rest4
            else c :: substAux lk fuel rest
          | _ :: _, _ => c :: substAux lk fuel rest
        else c :: substAux lk fuel rest
    else c :: substAux lk fuel rest

/-- Token substitution over a text, embedding replace_template_variables:
an empty text maps to the empty string, otherwise every token occurrence
is replaced through the mapping and unknown tokens stay verbatim. -/
def replace_template_variables (text : String) (data : String → Option String) : String :=
  if text = "" then "" else String.mk (substAux data text.data.length text.data)

/-- Item scoped field mapping built for each generated row: the five
item_ keys with display formatted values. -/
def itemData (item : Item) : List (String × String) :=
  [("item_name", item.name),
   ("item_description", item.description.getD ""),
   ("item_quantity", intStr item.quantity),
   ("item_rate", "$" ++ formatRat2 item.rate),
   ("item_amount", "$" ++ formatRat2 item.amount)]

/-- Lookup into the item scoped mapping. -/
def itemLookup (item : Item) (n : String) : Option String :=
  (itemData item).lookup n

/-- One generated item row: the template row cells with token
substitution under the item scoped mapping. -/
def renderItemRow (templateRow : List String) (item : Item) : List String :=
  templateRow.map (fun cellText => replace_template_variables cellText (itemLookup item))

/-- Row transform of process_table_rows: nothing happens when there are
no items or the template index is out of range; otherwise every row
after the template row is removed and one generated row per item is
appended, the template row itself staying in place. -/
def process_table_rows (rows : List (List String)) (invoice_items : List Item)
    (template_row_index : Nat) : List (List String) :=
  if invoice_items = [] ∨ rows.length ≤ template_row_index then rows
  else
    rows.take (template_row_index + 1) ++
      invoice_items.map (renderItemRow (rows.getD template_row_index []))

/-- Needle marking an item template row. -/
def itemNeedle : List Char := lbrace :: lbrace :: ('i' :: 't' :: 'e' :: 'm' :: '_' :: [])

/-- Substring test over character lists. -/
def containsSub (needle : List Char) : List Char → Bool
  | [] => needle.isEmpty
  | c :: t => needle.isPrefixOf (c :: t) || containsSub needle t

/-- Detection of an item template row: the space joined cell texts
contain the item_ token opener. -/
def rowHasItemToken (row : List String) : Bool :=
  containsSub itemNeedle (String.intercalate " " row).data

/-- Index of the first item template row of a table, when one exists. -/
def findItemRowIdxAux : Nat → List (List String) → Option Nat
  | _, [] => none
  | i, row :: rest =>
    if rowHasItemToken row then some i else findItemRowIdxAux (i + 1) rest

/-- Index search the table loop of process_document performs. -/
def findItemRowIdx (tbl : List (List String)) : Option Nat := findItemRowIdxAux 0 tbl

/-- Table pass of process_document: a table with an item template row is
handed to process_table_rows at that index; any other table gets plain
token substitution on every cell with the invoice level mapping. -/
def processTable (invLk : String → Option String) (invoice_items : List Item)
    (tbl : List (List String)) : List (List String) :=
  match findItemRowIdx tbl with
  | some idx => process_table_rows tbl invoice_items idx
  | none => tbl.map (fun row => row.map (fun c => replace_template_variables c invLk))

-- Decidable equality on Except values, used to settle concrete export
-- results by computation.
deriving instance DecidableEq for Except

/-- Digit character of one digit value. -/
def dChar (d : Nat) : Char := Char.ofNat (48 + d)

/-! ## Lemmas: decimal digit strings -/

lemma natStrAux_eq (fuel : Nat) : ∀ (n : Nat) (acc : List Char), n ≤ fuel →
    natStrAux fuel n acc = ((Nat.digits 10 n).reverse.map dChar) ++ acc := by
  induction fuel with
  | zero =>
    intro n acc h
    have hn : n = 0 := Nat.le_zero.mp h
    subst hn
    simp [natStrAux]
  | succ f ih =>
    intro n acc h
    match n with
    | 0 => simp [natStrAux]
    | Nat.succ m =>
      rw [natStrAux]
      · rw [ih ((m + 1) / 10) _ (by
          have := Nat.div_lt_self (Nat.succ_pos m) (by norm_num : 1 < 10)
          omega)]
        rw [Nat.digits_def' (by norm_num : 1 < 10) (Nat.succ_pos m)]
        simp [dChar, List.append_assoc]
      · omega

lemma natStr_data (n : Nat) :
    (natStr n).data = if n = 0 then [dChar 0] else (Nat.digits 10 n).reverse.map dChar := by
  unfold natStr
  split
  · rfl
  · rw [show (String.mk (natStrAux (n + 1) n [])).data = natStrAux (n + 1) n [] from rfl,
      natStrAux_eq (n + 1) n [] (Nat.le_succ n), List.append_nil]

lemma dChar_isDigit {d : Nat} (h : d < 10) : (dChar d).isDigit = true := by
  interval_cases d <;> decide

lemma digitVal_dChar {d : Nat} (h : d < 10) : digitVal (dChar d) = d := by
  interval_cases d <;> decide

lemma natStr_all_digits (n : Nat) : ∀ c ∈ (natStr n).data, c.isDigit = true := by
  rw [natStr_data]
  split
  · intro c hc
    simp at hc
    subst hc
    decide
  · intro c hc
    simp at hc
    obtain ⟨d, hd, rfl⟩ := hc
    exact dChar_isDigit (Nat.digits_lt_base (by norm_num) hd)

lemma natStr_ne_nil (n : Nat) : (natStr n).data ≠ [] := by
  rw [natStr_data]
  split
  · simp
  · simp [Nat.digits_ne_nil_iff_ne_zero, *]

lemma foldl_decode_digits : ∀ (L : List Nat) (a : Nat), (∀ d ∈ L, d < 10) →
    List.foldl (fun a c => 10 * a + digitVal c) a (L.reverse.map dChar) =
      Nat.ofDigits 10 L + a * 10 ^ L.length := by
  intro L
  induction L with
  | nil => intro a _; simp [Nat.ofDigits]
  | cons d T ih =>
    intro a h
    rw [List.reverse_cons, List.map_append, List.foldl_append]
    rw [ih a (fun x hx => h x (List.mem_cons_of_mem d hx))]
    simp only [List.map_cons, List.map_nil, List.foldl_cons, List.foldl_nil]
    rw [digitVal_dChar (h d (List.mem_cons_self d T))]
    rw [Nat.ofDigits_cons]
    simp [List.length_cons, pow_succ]
    ring

lemma decodeNatChars_natStr (n : Nat) : decodeNatChars (natStr n).data = n := by
  rw [natStr_data]
  split
  · subst n; decide
  · unfold decodeNatChars
    rw [foldl_decode_digits (Nat.digits 10 n) 0
      (fun d hd => Nat.digits_lt_base (by norm_num) hd)]
    simp [Nat.ofDigits_digits]

lemma takeWhile_append_all {p : Char → Bool} :
    ∀ (w r : List Char), (∀ c ∈ w, p c = true) →
      List.takeWhile p (w ++ r) = w ++ List.takeWhile p r := by
  intro w
  induction w with
  | nil => simp
  | cons c t ih =>
    intro r h
    simp only [List.cons_append, List.takeWhile_cons, h c (List.mem_cons_self c t)]
    rw [ih r (fun x hx => h x (List.mem_cons_of_mem c hx))]
    simp

lemma dropWhile_append_all {p : Char → Bool} :
    ∀ (w r : List Char), (∀ c ∈ w, p c = true) →
      List.dropWhile p (w ++ r) = List.dropWhile p r := by
  intro w
  induction w with
  | nil => simp
  | cons c t ih =>
    intro r h
    simp only [List.cons_append, List.dropWhile_cons, h c (List.mem_cons_self c t)]
    exact ih r (fun x hx => h x (List.mem_cons_of_mem c hx))

lemma takeWhile_digit_nil {r : List Char} (h : noDigitHead r) :
    List.takeWhile Char.isDigit r = [] := by
  cases r with
  | nil => rfl
  | cons c t => simp [List.takeWhile_cons, noDigitHead] at h ⊢; simp [h]

lemma dropWhile_digit_self {r : List Char} (h : noDigitHead r) :
    List.dropWhile Char.isDigit r = r := by
  cases r with
  | nil => rfl
  | cons c t => simp [List.dropWhile_cons, noDigitHead] at h ⊢; simp [h]

/-! ## Lemmas: JSON component round trips -/

lemma skipSpaces_cons_of (c : Char) (t : List Char) (h : isJsonSpace c = false) :
    skipSpaces (c :: t) = c :: t := by
  unfold skipSpaces
  rw [List.dropWhile_cons, if_neg (by simp [h])]

lemma skipSpaces_space (t : List Char) : skipSpaces (' ' :: t) = skipSpaces t := by
  unfold skipSpaces
  rw [List.dropWhile_cons, if_pos (by decide)]

lemma not_space_of_digit {c : Char} (h : c.isDigit = true) : isJsonSpace c = false := by
  have h1 : c ≠ ' ' := fun e => by subst e; exact absurd h (by decide)
  have h2 : c ≠ '\t' := fun e => by subst e; exact absurd h (by decide)
  have h3 : c ≠ '\n' := fun e => by subst e; exact absurd h (by decide)
  have h4 : c ≠ '\r' := fun e => by subst e; exact absurd h (by decide)
  simp [isJsonSpace, h1, h2, h3, h4]

lemma expectChar_head (c : Char) (t : List Char) (h : isJsonSpace c = false) :
    expectChar c (c :: t) = .ok t := by
  simp [expectChar, skipSpaces_cons_of c t h]

lemma expectChar_space (c : Char) (t : List Char) :
    expectChar c (' ' :: t) = expectChar c t := by
  simp [expectChar, skipSpaces_space]

lemma parseJString_round (s : String) (hs : plainStr s) (rest : List Char) :
    parseJString ('"' :: s.data ++ '"' :: rest) = .ok (s, rest) := by
  have hall : ∀ c ∈ s.data, (fun c => decide (c ≠ '"')) c = true := by
    intro c hc
    simp [hs c hc]
  unfold parseJString
  simp only [List.cons_append]
  rw [if_pos trivial,
    dropWhile_append_all s.data ('"' :: rest) hall,
    takeWhile_append_all s.data ('"' :: rest) hall]
  simp

lemma parseKey_round (k : String) (hk : plainStr k) (rest : List Char) :
    parseKey k (keyChars k ++ rest) = .ok (' ' :: rest) := by
  unfold parseKey keyChars jstrChars
  have h1 : ('"' :: k.data ++ ['"']) ++ [':', ' '] ++ rest =
      '"' :: (k.data ++ '"' :: ':' :: ' ' :: rest) := by simp
  rw [h1]
  rw [skipSpaces_cons_of '"' _ (by decide)]
  rw [show '"' :: (k.data ++ '"' :: ':' :: ' ' :: rest) =
      '"' :: k.data ++ '"' :: ':' :: ' ' :: rest from by simp]
  rw [parseJString_round k hk (':' :: ' ' :: rest)]
  show (if k = k then expectChar ':' (':' :: ' ' :: rest) else Except.error "invalid items JSON") = _
  rw [if_pos rfl]
  exact expectChar_head ':' _ (by decide)

lemma parseKey_space (k : String) (cs : List Char) :
    parseKey k (' ' :: cs) = parseKey k cs := by
  unfold parseKey
  rw [skipSpaces_space]

/-! ## Lemmas: number literal round trips -/

lemma intStr_data_neg (n : Int) (h : n < 0) :
    (intStr n).data = '-' :: (natStr n.natAbs).data := by
  unfold intStr
  rw [if_pos h]
  simp

lemma intStr_data_nonneg (n : Int) (h : ¬ n < 0) :
    (intStr n).data = (natStr n.natAbs).data := by
  unfold intStr
  rw [if_neg h]

lemma numBoundary_noDigit {r : List Char} (h : numBoundary r) : noDigitHead r := by
  cases r with
  | nil => trivial
  | cons c t => exact h.1

lemma noDigitHead_cons (c : Char) (t : List Char) (h : c.isDigit = false) :
    noDigitHead (c :: t) := h

lemma parseIntTok_round (n : Int) (r : List Char) (hr : noDigitHead r) :
    parseIntTok ((intStr n).data ++ r) = .ok (n, r) := by
  by_cases hn : n < 0
  · rw [intStr_data_neg n hn]
    unfold parseIntTok
    simp only [List.cons_append]
    rw [if_pos trivial]
    rw [takeWhile_append_all _ r (natStr_all_digits _), takeWhile_digit_nil hr,
      List.append_nil,
      dropWhile_append_all _ r (natStr_all_digits _), dropWhile_digit_self hr]
    rw [if_neg (by simp [natStr_ne_nil])]
    rw [decodeNatChars_natStr]
    have habs : -((n.natAbs : Nat) : Int) = n := by omega
    rw [habs]
  · obtain ⟨c, t, hct⟩ : ∃ c t, (natStr n.natAbs).data = c :: t := by
      cases h : (natStr n.natAbs).data with
      | nil => exact absurd h (natStr_ne_nil _)
      | cons c t => exact ⟨c, t, rfl⟩
    have hcd : c.isDigit = true := natStr_all_digits _ c (by rw [hct]; exact List.mem_cons_self c t)
    have hcne : c ≠ '-' := by
      intro e
      subst e
      exact absurd hcd (by decide)
    rw [intStr_data_nonneg n hn, hct]
    unfold parseIntTok
    simp only [List.cons_append]
    rw [if_neg hcne]
    rw [show c :: (t ++ r) = (c :: t) ++ r from rfl]
    rw [← hct]
    rw [takeWhile_append_all _ r (natStr_all_digits _), takeWhile_digit_nil hr,
      List.append_nil,
      dropWhile_append_all _ r (natStr_all_digits _), dropWhile_digit_self hr]
    rw [if_neg (by simp [natStr_ne_nil])]
    rw [decodeNatChars_natStr]
    have habs : ((n.natAbs : Nat) : Int) = n := by omega
    rw [habs]

lemma foldl_decode_replicate_zero : ∀ j : Nat,
    List.foldl (fun a c => 10 * a + digitVal c) 0 (List.replicate j (Char.ofNat 48)) = 0 := by
  intro j
  induction j with
  | zero => rfl
  | succ m ih => simpa [List.replicate_succ, List.foldl_cons] using ih

lemma decode_padZeros (k : Nat) (cs : List Char) :
    decodeNatChars (padZeros k cs) = decodeNatChars cs := by
  unfold padZeros decodeNatChars
  rw [List.foldl_append, foldl_decode_replicate_zero]

lemma padZeros_all_digits (k n : Nat) :
    ∀ c ∈ padZeros k (natStr n).data, c.isDigit = true := by
  intro c hc
  unfold padZeros at hc
  rcases List.mem_append.mp hc with h | h
  · rw [List.eq_of_mem_replicate h]
    decide
  · exact natStr_all_digits n c h

lemma padZeros_length_of_le (k : Nat) (cs : List Char) (h : cs.length ≤ k) :
    (padZeros k cs).length = k := by
  simp [padZeros]
  omega

lemma natStr_len_le (n k : Nat) (hk : 1 ≤ k) (h : n < 10 ^ k) :
    (natStr n).data.length ≤ k := by
  by_cases h0 : n = 0
  · subst h0
    simpa using hk
  · rw [natStr_data, if_neg h0]
    simp only [List.length_map, List.length_reverse]
    rw [Nat.digits_len 10 n (by norm_num) h0]
    have := Nat.log_lt_of_lt_pow h0 h
    omega

lemma ratDenOne (q : Rat) (h : q.den = 1) : ((q.num : Int) : ℚ) = q := by
  conv_rhs => rw [← Rat.num_div_den q]
  rw [h]
  simp

lemma ratNatAbs_nonneg (q : Rat) (hn : ¬ q.num < 0) :
    ((q.num.natAbs : Nat) : ℚ) = ((q.num : Int) : ℚ) := by
  have h : ((q.num.natAbs : Nat) : Int) = q.num := by omega
  have h2 : (((q.num.natAbs : Nat) : Int) : ℚ) = ((q.num : Int) : ℚ) :=
    congrArg (fun z : Int => (z : ℚ)) h
  rwa [Int.cast_natCast] at h2

lemma ratNatAbs_neg (q : Rat) (hn : q.num < 0) :
    ((q.num.natAbs : Nat) : ℚ) = -((q.num : Int) : ℚ) := by
  have h : ((q.num.natAbs : Nat) : Int) = -q.num := by omega
  have h2 : (((q.num.natAbs : Nat) : Int) : ℚ) = ((-q.num : Int) : ℚ) :=
    congrArg (fun z : Int => (z : ℚ)) h
  rwa [Int.cast_natCast, Int.cast_neg] at h2

lemma decimal_value (q : Rat) (k : Nat) (hk : 10 ^ k % q.den = 0) :
    ((q.num.natAbs * (10 ^ k / q.den) / 10 ^ k : Nat) : ℚ) +
      ((q.num.natAbs * (10 ^ k / q.den) % 10 ^ k : Nat) : ℚ) / (10 : ℚ) ^ k =
      ((q.num.natAbs : Nat) : ℚ) / ((q.den : Nat) : ℚ) := by
  have hdvd : q.den ∣ 10 ^ k := Nat.dvd_of_mod_eq_zero hk
  have hm : q.den * (10 ^ k / q.den) = 10 ^ k := Nat.mul_div_cancel' hdvd
  have hm0 : (10 ^ k / q.den : Nat) ≠ 0 := by
    intro h0
    rw [h0, Nat.mul_zero] at hm
    exact (pow_ne_zero k (by norm_num : (10 : ℕ) ≠ 0)) hm.symm
  have hmQ : ((10 ^ k / q.den : Nat) : ℚ) ≠ 0 := Nat.cast_ne_zero.mpr hm0
  have hdenQ : ((q.den : Nat) : ℚ) ≠ 0 := Nat.cast_ne_zero.mpr q.den_ne_zero
  have h10 : ((10 : ℚ)) ^ k ≠ 0 := pow_ne_zero k (by norm_num)
  have hsplit := Nat.div_add_mod (q.num.natAbs * (10 ^ k / q.den)) (10 ^ k)
  have hsplitQ := congrArg (fun z : Nat => (z : ℚ)) hsplit
  push_cast at hsplitQ
  have hmQeq := congrArg (fun z : Nat => (z : ℚ)) hm
  push_cast at hmQeq
  have hA : ((q.num.natAbs * (10 ^ k / q.den) / 10 ^ k : Nat) : ℚ) * (10 : ℚ) ^ k +
      ((q.num.natAbs * (10 ^ k / q.den) % 10 ^ k : Nat) : ℚ) =
      ((q.num.natAbs : Nat) : ℚ) * ((10 ^ k / q.den : Nat) : ℚ) := by
    linear_combination hsplitQ
  calc ((q.num.natAbs * (10 ^ k / q.den) / 10 ^ k : Nat) : ℚ) +
      ((q.num.natAbs * (10 ^ k / q.den) % 10 ^ k : Nat) : ℚ) / (10 : ℚ) ^ k
      = (((q.num.natAbs * (10 ^ k / q.den) / 10 ^ k : Nat) : ℚ) * (10 : ℚ) ^ k +
          ((q.num.natAbs * (10 ^ k / q.den) % 10 ^ k : Nat) : ℚ)) / (10 : ℚ) ^ k := by
        field_simp
    _ = (((q.num.natAbs : Nat) : ℚ) * ((10 ^ k / q.den : Nat) : ℚ)) / (10 : ℚ) ^ k := by
        rw [hA]
    _ = (((q.num.natAbs : Nat) : ℚ) * ((10 ^ k / q.den : Nat) : ℚ)) /
          (((q.den : Nat) : ℚ) * ((10 ^ k / q.den : Nat) : ℚ)) := by
        rw [hmQeq]
    _ = ((q.num.natAbs : Nat) : ℚ) / ((q.den : Nat) : ℚ) :=
        mul_div_mul_right _ _ hmQ

lemma numStr_den_one (q : Rat) (h : q.den = 1) : numStr q = intStr q.num := by
  unfold numStr
  rw [if_pos h]

lemma natStr_data_ne_nilE (n : Nat) : ∃ c t, (natStr n).data = c :: t := by
  cases h : (natStr n).data with
  | nil => exact absurd h (natStr_ne_nil _)
  | cons c t => exact ⟨c, t, rfl⟩

lemma parseNumber_round (q : Rat) (hd : decimalRat q) (r : List Char) (hb : numBoundary r) :
    parseNumber ((numStr q).data ++ r) = .ok (q, r) := by
  have hr : noDigitHead r := numBoundary_noDigit hb
  by_cases h1 : q.den = 1
  · rw [numStr_den_one q h1]
    have ht : List.takeWhile Char.isDigit ((natStr q.num.natAbs).data ++ r) =
        (natStr q.num.natAbs).data := by
      rw [takeWhile_append_all _ r (natStr_all_digits _), takeWhile_digit_nil hr,
        List.append_nil]
    have hdw : List.dropWhile Char.isDigit ((natStr q.num.natAbs).data ++ r) = r := by
      rw [dropWhile_append_all _ r (natStr_all_digits _), dropWhile_digit_self hr]
    obtain ⟨c, t, hct⟩ := natStr_data_ne_nilE q.num.natAbs
    have hcd : c.isDigit = true :=
      natStr_all_digits _ c (by rw [hct]; exact List.mem_cons_self c t)
    have hcne : c ≠ '-' := by
      intro e; subst e; exact absurd hcd (by decide)
    have hemp : ((natStr q.num.natAbs).data).isEmpty = false := by
      rw [hct]; rfl
    by_cases hn : q.num < 0
    · rw [intStr_data_neg _ hn]
      unfold parseNumber
      simp only [List.cons_append, if_true, ht, hdw, hemp]
      rw [if_neg (by simp)]
      cases r with
      | nil =>
        rw [decodeNatChars_natStr, ratNatAbs_neg q hn, neg_neg, ratDenOne q h1]
      | cons c2 t2 =>
        have hc2 : c2 ≠ '.' := hb.2
        split
        · rename_i t3 heq
          injection heq with he1 he2
          exact absurd he1 hc2
        · rw [decodeNatChars_natStr, ratNatAbs_neg q hn, neg_neg, ratDenOne q h1]
    · rw [intStr_data_nonneg _ hn, hct]
      unfold parseNumber
      simp only [List.cons_append]
      rw [if_neg hcne]
      rw [show c :: (t ++ r) = (natStr q.num.natAbs).data ++ r from by rw [hct]; rfl]
      simp only [ht, hdw, hemp]
      rw [if_neg (by simp)]
      cases r with
      | nil =>
        rw [decodeNatChars_natStr, ratNatAbs_nonneg q hn, ratDenOne q h1]
        simp
      | cons c2 t2 =>
        have hc2 : c2 ≠ '.' := hb.2
        split
        · rename_i t3 heq
          injection heq with he1 he2
          exact absurd he1 hc2
        · rw [decodeNatChars_natStr, ratNatAbs_nonneg q hn, ratDenOne q h1]
          simp
  · obtain ⟨k, hk⟩ := Option.isSome_iff_exists.mp (hd.resolve_left h1)
    have hkp : 10 ^ k % q.den = 0 := by
      have h := List.find?_some hk
      exact of_decide_eq_true h
    have hk1 : 1 ≤ k := by
      rcases Nat.eq_zero_or_pos k with h0 | h0
      · subst h0
        simp at hkp
        exact absurd hkp h1
      · exact h0
    have hpow : 0 < 10 ^ k := pow_pos (by norm_num) k
    have hfr : q.num.natAbs * (10 ^ k / q.den) % 10 ^ k < 10 ^ k := Nat.mod_lt _ hpow
    have hlen : (natStr (q.num.natAbs * (10 ^ k / q.den) % 10 ^ k)).data.length ≤ k :=
      natStr_len_le _ k hk1 hfr
    have hnum : numStr q =
        (if q.num < 0 then "-" else "") ++ natStr (q.num.natAbs * (10 ^ k / q.den) / 10 ^ k)
          ++ "." ++ String.mk (padZeros k
            (natStr (q.num.natAbs * (10 ^ k / q.den) % 10 ^ k)).data) := by
      unfold numStr
      rw [if_neg h1, hk]
    have hpzd : ∀ c ∈ padZeros k (natStr (q.num.natAbs * (10 ^ k / q.den) % 10 ^ k)).data,
        c.isDigit = true := padZeros_all_digits k _
    have hpzlen : (padZeros k (natStr (q.num.natAbs * (10 ^ k / q.den) % 10 ^ k)).data).length
        = k := padZeros_length_of_le k _ hlen
    have hpzne : (padZeros k (natStr (q.num.natAbs * (10 ^ k / q.den) % 10 ^ k)).data).isEmpty
        = false := by
      cases hpz : padZeros k (natStr (q.num.natAbs * (10 ^ k / q.den) % 10 ^ k)).data with
      | nil => rw [hpz] at hpzlen; simp at hpzlen; omega
      | cons a b => rfl
    have htpz : List.takeWhile Char.isDigit
        (padZeros k (natStr (q.num.natAbs * (10 ^ k / q.den) % 10 ^ k)).data ++ r) =
        padZeros k (natStr (q.num.natAbs * (10 ^ k / q.den) % 10 ^ k)).data := by
      rw [takeWhile_append_all _ r hpzd, takeWhile_digit_nil hr, List.append_nil]
    have hdpz : List.dropWhile Char.isDigit
        (padZeros k (natStr (q.num.natAbs * (10 ^ k / q.den) % 10 ^ k)).data ++ r) = r := by
      rw [dropWhile_append_all _ r hpzd, dropWhile_digit_self hr]
    have hti : List.takeWhile Char.isDigit
        ((natStr (q.num.natAbs * (10 ^ k / q.den) / 10 ^ k)).data ++
          '.' :: (padZeros k (natStr (q.num.natAbs * (10 ^ k / q.den) % 10 ^ k)).data ++ r)) =
        (natStr (q.num.natAbs * (10 ^ k / q.den) / 10 ^ k)).data := by
      rw [takeWhile_append_all _ _ (natStr_all_digits _)]
      simp [List.takeWhile_cons]
    have hdi : List.dropWhile Char.isDigit
        ((natStr (q.num.natAbs * (10 ^ k / q.den) / 10 ^ k)).data ++
          '.' :: (padZeros k (natStr (q.num.natAbs * (10 ^ k / q.den) % 10 ^ k)).data ++ r)) =
        '.' :: (padZeros k (natStr (q.num.natAbs * (10 ^ k / q.den) % 10 ^ k)).data ++ r) := by
      rw [dropWhile_append_all _ _ (natStr_all_digits _)]
      simp [List.dropWhile_cons]
    have hempi : ((natStr (q.num.natAbs * (10 ^ k / q.den) / 10 ^ k)).data).isEmpty = false := by
      obtain ⟨c, t, hct⟩ := natStr_data_ne_nilE (q.num.natAbs * (10 ^ k / q.den) / 10 ^ k)
      rw [hct]; rfl
    have hval : ((decodeNatChars (natStr (q.num.natAbs * (10 ^ k / q.den) / 10 ^ k)).data : Nat) : ℚ) +
        ((decodeNatChars (padZeros k (natStr (q.num.natAbs * (10 ^ k / q.den) % 10 ^ k)).data) : Nat) : ℚ) /
          (10 : ℚ) ^ (padZeros k (natStr (q.num.natAbs * (10 ^ k / q.den) % 10 ^ k)).data).length =
        ((q.num.natAbs : Nat) : ℚ) / ((q.den : Nat) : ℚ) := by
      rw [decode_padZeros, decodeNatChars_natStr, decodeNatChars_natStr, hpzlen]
      exact decimal_value q k hkp
    by_cases hn : q.num < 0
    · rw [hnum]
      rw [if_pos hn]
      rw [show (("-" ++ natStr (q.num.natAbs * (10 ^ k / q.den) / 10 ^ k) ++ "." ++
          String.mk (padZeros k (natStr (q.num.natAbs * (10 ^ k / q.den) % 10 ^ k)).data)).data ++ r) =
          '-' :: ((natStr (q.num.natAbs * (10 ^ k / q.den) / 10 ^ k)).data ++
            '.' :: (padZeros k (natStr (q.num.natAbs * (10 ^ k / q.den) % 10 ^ k)).data ++ r))
          from by simp]
      unfold parseNumber
      simp only [List.cons_append, if_true, hti, hdi, hempi]
      rw [if_neg (by simp)]
      simp only [htpz, hdpz, hpzne]
      rw [if_neg (by simp)]
      rw [hval, ratNatAbs_neg q hn, neg_div, neg_neg, Rat.num_div_den]
    · obtain ⟨c, t, hct⟩ := natStr_data_ne_nilE (q.num.natAbs * (10 ^ k / q.den) / 10 ^ k)
      have hcd : c.isDigit = true :=
        natStr_all_digits _ c (by rw [hct]; exact List.mem_cons_self c t)
      have hcne : c ≠ '-' := by
        intro e; subst e; exact absurd hcd (by decide)
      rw [hnum]
      rw [if_neg hn]
      rw [show ((("" : String) ++ natStr (q.num.natAbs * (10 ^ k / q.den) / 10 ^ k) ++ "." ++
          String.mk (padZeros k (natStr (q.num.natAbs * (10 ^ k / q.den) % 10 ^ k)).data)).data ++ r) =
          ((natStr (q.num.natAbs * (10 ^ k / q.den) / 10 ^ k)).data ++
            '.' :: (padZeros k (natStr (q.num.natAbs * (10 ^ k / q.den) % 10 ^ k)).data ++ r))
          from by simp]
      rw [show ((natStr (q.num.natAbs * (10 ^ k / q.den) / 10 ^ k)).data ++
            '.' :: (padZeros k (natStr (q.num.natAbs * (10 ^ k / q.den) % 10 ^ k)).data ++ r)) =
          c :: (t ++ '.' :: (padZeros k (natStr (q.num.natAbs * (10 ^ k / q.den) % 10 ^ k)).data ++ r))
          from by rw [hct]; rfl]
      unfold parseNumber
      simp only [List.cons_append]
      rw [if_neg hcne]
      rw [show c :: (t ++ '.' :: (padZeros k (natStr (q.num.natAbs * (10 ^ k / q.den) % 10 ^ k)).data ++ r)) =
          ((natStr (q.num.natAbs * (10 ^ k / q.den) / 10 ^ k)).data ++
            '.' :: (padZeros k (natStr (q.num.natAbs * (10 ^ k / q.den) % 10 ^ k)).data ++ r))
          from by rw [hct]; rfl]
      simp only [hti, hdi, hempi]
      rw [if_neg (by simp)]
      simp only [htpz, hdpz, hpzne]
      rw [if_neg (by simp)]
      rw [hval, ratNatAbs_nonneg q hn, Rat.num_div_den]
      simp

/-! ## Lemmas: item object and array round trips -/

lemma bind_ok_ex {α β : Type} (a : α) (f : α → Except String β) :
    (Except.ok a : Except String α) >>= f = f a := rfl

lemma bind_error_ex {α β : Type} (e : String) (f : α → Except String β) :
    (Except.error e : Except String α) >>= f = .error e := rfl

lemma intStr_headE (n : Int) :
    ∃ c t, (intStr n).data = c :: t ∧ isJsonSpace c = false := by
  by_cases hn : n < 0
  · rw [intStr_data_neg n hn]
    exact ⟨'-', (natStr n.natAbs).data, rfl, by decide⟩
  · rw [intStr_data_nonneg n hn]
    obtain ⟨c, t, hct⟩ := natStr_data_ne_nilE n.natAbs
    exact ⟨c, t, hct, not_space_of_digit
      (natStr_all_digits _ c (by rw [hct]; exact List.mem_cons_self c t))⟩

lemma skipSpaces_intStr (n : Int) (r : List Char) :
    skipSpaces ((intStr n).data ++ r) = (intStr n).data ++ r := by
  obtain ⟨c, t, hct, hcs⟩ := intStr_headE n
  rw [hct]
  simp only [List.cons_append]
  exact skipSpaces_cons_of c _ hcs

lemma numStr_headE (q : Rat) :
    ∃ c t, (numStr q).data = c :: t ∧ isJsonSpace c = false := by
  unfold numStr
  split
  · exact intStr_headE q.num
  · cases hk : decExp q.den with
    | some k =>
      by_cases hn : q.num < 0
      · rw [if_pos hn]
        refine ⟨'-', (natStr (q.num.natAbs * (10 ^ k / q.den) / 10 ^ k)).data ++
          '.' :: (padZeros k (natStr (q.num.natAbs * (10 ^ k / q.den) % 10 ^ k)).data), ?_, by decide⟩
        simp
      · rw [if_neg hn]
        obtain ⟨c, t, hct⟩ := natStr_data_ne_nilE (q.num.natAbs * (10 ^ k / q.den) / 10 ^ k)
        refine ⟨c, t ++ '.' :: (padZeros k (natStr (q.num.natAbs * (10 ^ k / q.den) % 10 ^ k)).data), ?_,
          not_space_of_digit (natStr_all_digits _ c (by rw [hct]; exact List.mem_cons_self c t))⟩
        simp [hct]
    | none =>
      obtain ⟨c, t, hct, hcs⟩ := intStr_headE q.num
      refine ⟨c, t ++ '/' :: (natStr q.den).data, ?_, hcs⟩
      simp [hct]

lemma skipSpaces_numStr (q : Rat) (r : List Char) :
    skipSpaces ((numStr q).data ++ r) = (numStr q).data ++ r := by
  obtain ⟨c, t, hct, hcs⟩ := numStr_headE q
  rw [hct]
  simp only [List.cons_append]
  exact skipSpaces_cons_of c _ hcs

lemma jstrChars_append (s : String) (x : List Char) :
    jstrChars s ++ x = '"' :: (s.data ++ '"' :: x) := by
  simp [jstrChars]

lemma noDigitHead_comma (t : List Char) : noDigitHead (',' :: t) := rfl

lemma numBoundary_comma (t : List Char) : numBoundary (',' :: t) := ⟨rfl, by decide⟩

lemma numBoundary_rbrace (t : List Char) : numBoundary (rbrace :: t) := ⟨rfl, by decide⟩

lemma isJsonSpace_comma : isJsonSpace ',' = false := rfl

lemma isJsonSpace_rbrace : isJsonSpace rbrace = false := rfl

lemma isJsonSpace_lbrace : isJsonSpace lbrace = false := rfl

lemma isJsonSpace_colon : isJsonSpace ':' = false := rfl

lemma isJsonSpace_quote : isJsonSpace '"' = false := rfl

lemma parseItemRest_round (nm : String) (dsc : Option String) (qn : Int) (rt am : Rat)
    (hrt : decimalRat rt) (ham : decimalRat am) (rest : List Char) :
    parseItemRest nm dsc (' ' :: (keyChars "quantity" ++ ((intStr qn).data ++ (sepChars ++
      (keyChars "rate" ++ ((numStr rt).data ++ (sepChars ++
      (keyChars "amount" ++ ((numStr am).data ++ rbrace :: rest))))))))) =
    .ok ({ name := nm, description := dsc, quantity := qn, rate := rt, amount := am }, rest) := by
  have hpq : plainStr "quantity" := by decide
  have hpr : plainStr "rate" := by decide
  have hpa : plainStr "amount" := by decide
  unfold parseItemRest
  simp only [sepChars, List.cons_append, List.nil_append,
    parseKey_space, parseKey_round "quantity" hpq, parseKey_round "rate" hpr,
    parseKey_round "amount" hpa, bind_ok_ex, skipSpaces_space, skipSpaces_intStr,
    skipSpaces_numStr, parseIntTok_round, parseNumber_round, noDigitHead_comma,
    numBoundary_comma, numBoundary_rbrace, hrt, ham,
    expectChar_head, isJsonSpace_comma, isJsonSpace_rbrace]

lemma skipSpaces_quote (t : List Char) : skipSpaces ('"' :: t) = '"' :: t :=
  skipSpaces_cons_of '"' t rfl

lemma parseJString_round2 (s : String) (hs : plainStr s) (rest : List Char) :
    parseJString ('"' :: (s.data ++ '"' :: rest)) = .ok (s, rest) := by
  have h := parseJString_round s hs rest
  simpa using h

lemma parseKey_round2 (k : String) (hk : plainStr k) (rest : List Char) :
    parseKey k ('"' :: (k.data ++ '"' :: ':' :: ' ' :: rest)) = .ok (' ' :: rest) := by
  have h := parseKey_round k hk rest
  simpa [keyChars, jstrChars] using h

lemma parseItemRest_round2 (nm : String) (dsc : Option String) (qn : Int) (rt am : Rat)
    (hrt : decimalRat rt) (ham : decimalRat am) (rest : List Char) :
    parseItemRest nm dsc (' ' :: ('"' :: ("quantity".data ++ '"' :: ':' :: ' ' ::
      ((intStr qn).data ++ ',' :: ' ' :: ('"' :: ("rate".data ++ '"' :: ':' :: ' ' ::
      ((numStr rt).data ++ ',' :: ' ' :: ('"' :: ("amount".data ++ '"' :: ':' :: ' ' ::
      ((numStr am).data ++ rbrace :: rest)))))))))) =
    .ok ({ name := nm, description := dsc, quantity := qn, rate := rt, amount := am }, rest) := by
  have h := parseItemRest_round nm dsc qn rt am hrt ham rest
  simpa [keyChars, jstrChars, sepChars] using h


lemma parseKey_name (rest : List Char) :
    parseKey "name" ('"' :: 'n' :: 'a' :: 'm' :: 'e' :: '"' :: ':' :: ' ' :: rest) =
      .ok (' ' :: rest) := by
  have h := parseKey_round2 "name" (by decide) rest
  simpa using h

lemma parseKey_rate (rest : List Char) :
    parseKey "rate" ('"' :: 'r' :: 'a' :: 't' :: 'e' :: '"' :: ':' :: ' ' :: rest) =
      .ok (' ' :: rest) := by
  have h := parseKey_round2 "rate" (by decide) rest
  simpa using h

lemma parseKey_amount (rest : List Char) :
    parseKey "amount" ('"' :: 'a' :: 'm' :: 'o' :: 'u' :: 'n' :: 't' :: '"' :: ':' :: ' ' :: rest) =
      .ok (' ' :: rest) := by
  have h := parseKey_round2 "amount" (by decide) rest
  simpa using h

lemma parseKey_quantity (rest : List Char) :
    parseKey "quantity" ('"' :: 'q' :: 'u' :: 'a' :: 'n' :: 't' :: 'i' :: 't' :: 'y' :: '"' ::
      ':' :: ' ' :: rest) = .ok (' ' :: rest) := by
  have h := parseKey_round2 "quantity" (by decide) rest
  simpa using h

lemma parseJString_quantity (rest : List Char) :
    parseJString ('"' :: 'q' :: 'u' :: 'a' :: 'n' :: 't' :: 'i' :: 't' :: 'y' :: '"' :: rest) =
      .ok ("quantity", rest) := by
  have h := parseJString_round2 "quantity" (by decide) rest
  simpa using h

lemma parseJString_description (rest : List Char) :
    parseJString ('"' :: 'd' :: 'e' :: 's' :: 'c' :: 'r' :: 'i' :: 'p' :: 't' :: 'i' :: 'o' ::
      'n' :: '"' :: rest) = .ok ("description", rest) := by
  have h := parseJString_round2 "description" (by decide) rest
  simpa using h

lemma parseItemRest_round3 (nm : String) (dsc : Option String) (qn : Int) (rt am : Rat)
    (hrt : decimalRat rt) (ham : decimalRat am) (rest : List Char) :
    parseItemRest nm dsc (' ' :: '"' :: 'q' :: 'u' :: 'a' :: 'n' :: 't' :: 'i' :: 't' :: 'y' ::
      '"' :: ':' :: ' ' :: ((intStr qn).data ++ ',' :: ' ' :: '"' :: 'r' :: 'a' :: 't' :: 'e' ::
      '"' :: ':' :: ' ' :: ((numStr rt).data ++ ',' :: ' ' :: '"' :: 'a' :: 'm' :: 'o' :: 'u' ::
      'n' :: 't' :: '"' :: ':' :: ' ' :: ((numStr am).data ++ rbrace :: rest)))) =
    .ok ({ name := nm, description := dsc, quantity := qn, rate := rt, amount := am }, rest) := by
  have h := parseItemRest_round nm dsc qn rt am hrt ham rest
  simpa [keyChars, jstrChars, sepChars] using h

lemma parseItem_round (it : Item) (hwf : itemWF it) (rest : List Char) :
    parseItem (dumpItemChars it ++ rest) = .ok (it, rest) := by
  obtain ⟨nm0, dsc0, qn0, rt0, am0⟩ := it
  obtain ⟨hnm, hds, hrt, ham⟩ := hwf
  cases dsc0 with
  | none =>
    unfold parseItem dumpItemChars
    simp only [sepChars, keyChars, jstrChars, List.cons_append, List.nil_append,
      List.append_assoc, expectChar_head, isJsonSpace_lbrace, isJsonSpace_comma,
      isJsonSpace_colon, bind_ok_ex, parseKey_name, parseKey_rate, parseKey_amount,
      skipSpaces_space, skipSpaces_quote, parseJString_round2, hnm,
      parseJString_quantity, skipSpaces_intStr, skipSpaces_numStr, parseKey_space,
      parseIntTok_round, noDigitHead_comma, parseNumber_round, numBoundary_comma,
      numBoundary_rbrace, hrt, ham, isJsonSpace_rbrace, if_false, if_true,
      (by decide : (("quantity" : String) = "description") = False),
      eq_self_iff_true, ite_true, ite_false]
  | some d =>
    have hpdv : plainStr d := hds
    unfold parseItem dumpItemChars
    simp only [sepChars, keyChars, jstrChars, List.cons_append, List.nil_append,
      List.append_assoc, expectChar_head, isJsonSpace_lbrace, isJsonSpace_comma,
      isJsonSpace_colon, bind_ok_ex, parseKey_name, skipSpaces_space,
      skipSpaces_quote, parseJString_round2, hnm, hpdv, parseJString_description,
      skipSpaces_intStr, skipSpaces_numStr, parseIntTok_round, noDigitHead_comma,
      parseNumber_round, numBoundary_comma, numBoundary_rbrace, hrt, ham,
      isJsonSpace_rbrace, parseItemRest_round3, parseKey_space, if_false, if_true,
      (by decide : (("description" : String) = "description") = True),
      eq_self_iff_true, ite_true, ite_false]

lemma parseItem_space (y : List Char) : parseItem (' ' :: y) = parseItem y := by
  unfold parseItem
  rw [expectChar_space]

lemma parseItemsAux_space (fuel : Nat) (y : List Char) :
    parseItemsAux fuel (' ' :: y) = parseItemsAux fuel y := by
  cases fuel with
  | zero => rfl
  | succ f => simp only [parseItemsAux, parseItem_space]

lemma dumpItemChars_head (it : Item) : ∃ y, dumpItemChars it = lbrace :: y :=
  ⟨_, rfl⟩

lemma dumpListChars_cons_head (it : Item) (t : List Item) :
    ∃ y, dumpListChars (it :: t) = lbrace :: y := by
  cases t with
  | nil => exact ⟨_, rfl⟩
  | cons b u => exact ⟨_, rfl⟩

lemma dumpList_len : ∀ l : List Item, l.length ≤ (dumpListChars l).length := by
  intro l
  induction l with
  | nil => simp [dumpListChars]
  | cons it t ih =>
    cases t with
    | nil => simp [dumpListChars, dumpItemChars]
    | cons b u =>
      rw [show dumpListChars (it :: b :: u) =
        dumpItemChars it ++ sepChars ++ dumpListChars (b :: u) from rfl]
      simp only [List.length_append, List.length_cons, sepChars]
      have h1 : 1 ≤ (dumpItemChars it).length := by
        obtain ⟨y, hy⟩ := dumpItemChars_head it
        rw [hy]
        simp
      simp only [List.length_cons] at ih ⊢
      omega

lemma parseItemsAux_round : ∀ (l : List Item) (fuel : Nat), l ≠ [] → itemsWF l →
    l.length ≤ fuel → ∀ rest : List Char,
      parseItemsAux fuel (dumpListChars l ++ ']' :: rest) = .ok (l, rest) := by
  intro l
  induction l with
  | nil => intro fuel h; exact absurd rfl h
  | cons it t ih =>
    intro fuel _ hwf hlen rest
    cases fuel with
    | zero => simp at hlen
    | succ f =>
      have hit : itemWF it := hwf it (List.mem_cons_self it t)
      cases t with
      | nil =>
        rw [show dumpListChars [it] = dumpItemChars it from rfl]
        simp only [parseItemsAux, parseItem_round it hit, bind_ok_ex,
          skipSpaces_cons_of ']' rest rfl, if_false, if_true, ite_true, ite_false,
          (by decide : ((']' : Char) = ',') = False),
          (by decide : ((']' : Char) = ']') = True)]
      | cons b u =>
        rw [show dumpListChars (it :: b :: u) =
          dumpItemChars it ++ sepChars ++ dumpListChars (b :: u) from rfl]
        rw [show dumpItemChars it ++ sepChars ++ dumpListChars (b :: u) ++ ']' :: rest =
          dumpItemChars it ++ (',' :: ' ' :: (dumpListChars (b :: u) ++ ']' :: rest)) from by
            simp [sepChars]]
        simp only [parseItemsAux, parseItem_round it hit, bind_ok_ex,
          skipSpaces_cons_of ',' _ rfl,
          (by decide : ((',' : Char) = ',') = True), if_true, ite_true]
        rw [parseItemsAux_space]
        rw [ih f (by simp) (fun x hx => hwf x (List.mem_cons_of_mem it hx))
          (by simp at hlen ⊢; omega) rest]
        rfl


lemma parseItemsJson_dumps (l : List Item) (hwf : itemsWF l) :
    parseItemsJson (dumpsItems l) = .ok l := by
  cases l with
  | nil => decide
  | cons it t =>
    have hfuel : ∀ fuel : Nat, (it :: t).length ≤ fuel →
        parseItemsAux fuel (dumpListChars (it :: t) ++ ']' :: []) = .ok (it :: t, []) :=
      fun fuel hf => parseItemsAux_round _ fuel (by simp) hwf hf []
    unfold parseItemsJson
    rw [show (dumpsItems (it :: t)).data = '[' :: (dumpListChars (it :: t) ++ [']'])
      from rfl]
    rw [expectChar_head '[' _ rfl]
    rw [bind_ok_ex]
    obtain ⟨y, hy⟩ := dumpListChars_cons_head it t
    rw [show dumpListChars (it :: t) ++ [']'] = lbrace :: (y ++ [']']) from by
      rw [hy]; simp]
    rw [skipSpaces_cons_of lbrace _ rfl]
    simp only [(by decide : ((lbrace : Char) = ']') = False), ite_false]
    rw [show lbrace :: (y ++ [']']) = dumpListChars (it :: t) ++ ']' :: [] from by
      rw [hy]; simp]
    rw [hfuel (('[' :: (dumpListChars (it :: t) ++ ']' :: [])).length + 1) (by
      have hb := dumpList_len (it :: t)
      simp only [List.length_cons, List.length_append] at hb ⊢
      omega)]
    simp only [bind_ok_ex]
    rfl

lemma substAux_fuel (lk : String → Option String) :
    ∀ (n : Nat) (cs : List Char) (f1 f2 : Nat), cs.length ≤ n → cs.length ≤ f1 →
      cs.length ≤ f2 → substAux lk f1 cs = substAux lk f2 cs := by
  intro n
  induction n with
  | zero =>
    intro cs f1 f2 hn _ _
    have hcs : cs = [] := List.length_eq_zero.mp (Nat.le_zero.mp hn)
    subst hcs
    cases f1 <;> cases f2 <;> rfl
  | succ m ih =>
    intro cs f1 f2 hn h1 h2
    cases cs with
    | nil => cases f1 <;> cases f2 <;> rfl
    | cons c rest =>
      simp only [List.length_cons] at hn h1 h2
      obtain ⟨a, rfl⟩ : ∃ a, f1 = a + 1 := ⟨f1 - 1, by omega⟩
      obtain ⟨b, rfl⟩ : ∃ b, f2 = b + 1 := ⟨f2 - 1, by omega⟩
      rw [substAux.eq_def, substAux.eq_def]
      simp only []
      by_cases hc : c = lbrace
      · rw [if_pos hc, if_pos hc]
        cases rest with
        | nil => rfl
        | cons c2 rest2 =>
          simp only [List.length_cons] at hn h1 h2
          simp only []
          by_cases hc2 : c2 = lbrace
          · rw [if_pos hc2, if_pos hc2]
            cases hw : rest2.takeWhile isWordChar with
            | nil =>
              simp only []
              congr 1
              exact ih (c2 :: rest2) a b (by simp; omega) (by simp; omega) (by simp; omega)
            | cons wc wt =>
              cases hr3 : rest2.dropWhile isWordChar with
              | nil =>
                simp only []
                congr 1
                exact ih (c2 :: rest2) a b (by simp; omega) (by simp; omega) (by simp; omega)
              | cons d1 r3t =>
                cases r3t with
                | nil =>
                  simp only []
                  congr 1
                  exact ih (c2 :: rest2) a b (by simp; omega) (by simp; omega) (by simp; omega)
                | cons d2 rest4 =>
                  have hlen4 : rest4.length + 2 ≤ rest2.length := by
                    have hsub := List.Sublist.length_le
                      (show List.Sublist (rest2.dropWhile isWordChar) rest2 from List.dropWhile_sublist isWordChar)
                    rw [hr3] at hsub
                    simp at hsub
                    omega
                  simp only []
                  by_cases hd : d1 = rbrace ∧ d2 = rbrace
                  · rw [if_pos hd, if_pos hd]
                    congr 1
                    exact ih rest4 a b (by omega) (by omega) (by omega)
                  · rw [if_neg hd, if_neg hd]
                    congr 1
                    exact ih (c2 :: rest2) a b (by simp; omega) (by simp; omega) (by simp; omega)
          · rw [if_neg hc2, if_neg hc2]
            congr 1
            exact ih (c2 :: rest2) a b (by simp; omega) (by simp; omega) (by simp; omega)
      · rw [if_neg hc, if_neg hc]
        congr 1
        exact ih rest a b (by omega) (by omega) (by omega)

lemma replace_data (t : String) (lk : String → Option String) :
    replace_template_variables t lk = String.mk (substAux lk t.data.length t.data) := by
  unfold replace_template_variables
  split
  · rename_i h
    subst h
    rfl
  · rfl

lemma substAux_clean_lead (lk : String → Option String) :
    ∀ (p rest : List Char) (f : Nat), (∀ c ∈ p, c ≠ lbrace) →
      p.length + rest.length ≤ f →
      substAux lk f (p ++ rest) = p ++ substAux lk (f - p.length) rest := by
  intro p
  induction p with
  | nil => intro rest f _ _; simp
  | cons c pt ih =>
    intro rest f hcl hf
    simp only [List.length_cons] at hf
    obtain ⟨a, rfl⟩ : ∃ a, f = a + 1 := ⟨f - 1, by omega⟩
    simp only [List.cons_append]
    rw [substAux.eq_def]
    simp only []
    rw [if_neg (hcl c (List.mem_cons_self c pt))]
    rw [ih rest a (fun x hx => hcl x (List.mem_cons_of_mem c hx)) (by omega)]
    have harith : a - pt.length = a + 1 - (pt.length + 1) := by omega
    rw [harith]
    simp

lemma isWordChar_rbrace : isWordChar rbrace = false := rfl

lemma substAux_token (lk : String → Option String) (w : List Char) (hw : w ≠ [])
    (hww : ∀ c ∈ w, isWordChar c = true) (hlk : lk (String.mk w) = none)
    (post : List Char) (f : Nat) :
    substAux lk (f + 1) (lbrace :: lbrace :: (w ++ rbrace :: rbrace :: post)) =
      lbrace :: lbrace :: (w ++ rbrace :: rbrace :: substAux lk f post) := by
  obtain ⟨wc, wt, rfl⟩ : ∃ wc wt, w = wc :: wt := by
    cases w with
    | nil => exact absurd rfl hw
    | cons wc wt => exact ⟨wc, wt, rfl⟩
  have htw : List.takeWhile isWordChar ((wc :: wt) ++ rbrace :: rbrace :: post) = wc :: wt := by
    rw [takeWhile_append_all _ _ hww]
    simp [List.takeWhile_cons, isWordChar_rbrace]
  have hdw : List.dropWhile isWordChar ((wc :: wt) ++ rbrace :: rbrace :: post) =
      rbrace :: rbrace :: post := by
    rw [dropWhile_append_all _ _ hww]
    simp [List.dropWhile_cons, isWordChar_rbrace]
  rw [substAux.eq_def]
  simp only [if_true, htw, hdw, eq_self_iff_true, and_self, ite_true]
  unfold tokenRepl
  rw [hlk]
  simp

/-- C7: during token substitution, a token whose name has no entry in the
field mapping is left verbatim with its delimiters, never dropped and
never an error; substitution continues after it. -/
theorem c7_unknown_token_left_verbatim (lk : String → Option String) (pre w post : String)
    (hpre : ∀ c ∈ pre.data, c ≠ lbrace) (hw : w ≠ "")
    (hww : ∀ c ∈ w.data, isWordChar c = true) (hlk : lk w = none) :
    replace_template_variables (pre ++ "\x7b\x7b" ++ w ++ "\x7d\x7d" ++ post) lk =
      pre ++ "\x7b\x7b" ++ w ++ "\x7d\x7d" ++ replace_template_variables post lk := by
  have hwd : w.data ≠ [] := by
    intro h
    exact hw (String.ext h)
  have hdata : (pre ++ "\x7b\x7b" ++ w ++ "\x7d\x7d" ++ post).data =
      pre.data ++ (lbrace :: lbrace :: (w.data ++ rbrace :: rbrace :: post.data)) := by
    simp [String.data_append]
    constructor <;> decide
  apply String.ext
  rw [replace_data, replace_data, hdata]
  have hlen : (pre.data ++ (lbrace :: lbrace :: (w.data ++ rbrace :: rbrace :: post.data))).length
      = pre.data.length + (w.data.length + post.data.length + 4) := by
    simp
    omega
  rw [hlen]
  rw [substAux_clean_lead lk pre.data _ _ hpre (by simp; omega)]
  rw [show pre.data.length + (w.data.length + post.data.length + 4) - pre.data.length =
    (w.data.length + post.data.length + 3) + 1 from by omega]
  rw [substAux_token lk w.data hwd hww (by
    rw [show String.mk w.data = w from String.ext rfl]
    exact hlk) post.data _]
  rw [substAux_fuel lk post.data.length post.data (w.data.length + post.data.length + 3)
    post.data.length le_rfl (by omega) le_rfl]
  simp [String.data_append]
  constructor <;> decide

lemma findItemRowIdxAux_bound : ∀ (tbl : List (List String)) (i idx : Nat),
    findItemRowIdxAux i tbl = some idx → i ≤ idx ∧ idx - i < tbl.length := by
  intro tbl
  induction tbl with
  | nil => intro i idx h; simp [findItemRowIdxAux] at h
  | cons row rest ih =>
    intro i idx h
    unfold findItemRowIdxAux at h
    by_cases hr : rowHasItemToken row
    · rw [if_pos hr] at h
      injection h with h
      subst h
      simp
    · rw [if_neg hr] at h
      have := ih (i + 1) idx h
      simp only [List.length_cons]
      omega

lemma findItemRowIdx_lt (tbl : List (List String)) (idx : Nat)
    (h : findItemRowIdx tbl = some idx) : idx < tbl.length := by
  have hb := findItemRowIdxAux_bound tbl 0 idx h
  omega

/-- C5: item row expansion of process_table_rows generates exactly one new
row per invoice item: with a valid template index, the rendered table is
the retained prefix followed by the generated rows when items exist, the
table unchanged when the item list is empty, and the generated segment
has exactly the item count as its length. -/
theorem c5_item_row_expansion (rows : List (List String)) (items : List Item) (idx : Nat)
    (h : idx < rows.length) :
    process_table_rows rows items idx =
      rows.take (idx + 1) ++
        (if items = [] then rows.drop (idx + 1)
         else items.map (renderItemRow (rows.getD idx []))) ∧
      (items.map (renderItemRow (rows.getD idx []))).length = items.length := by
  constructor
  · unfold process_table_rows
    by_cases hi : items = []
    · rw [if_pos (Or.inl hi), if_pos hi, List.take_append_drop]
    · rw [if_neg (by push_neg; exact ⟨hi, by omega⟩), if_neg hi]
  · simp

/-- C5 witness: a concrete two row table with one item expands to the
retained prefix plus exactly one generated row. -/
theorem c5_witness :
    process_table_rows [["Description", "Amount"],
        ["\x7b\x7bitem_name\x7d\x7d", "\x7b\x7bitem_amount\x7d\x7d"]]
      [Item.mk "Widget" none 2 50 100] 1 =
      [["Description", "Amount"],
          ["\x7b\x7bitem_name\x7d\x7d", "\x7b\x7bitem_amount\x7d\x7d"]].take 2 ++
        (if [Item.mk "Widget" none 2 50 100] = ([] : List Item) then
          [["Description", "Amount"],
              ["\x7b\x7bitem_name\x7d\x7d", "\x7b\x7bitem_amount\x7d\x7d"]].drop 2
         else [Item.mk "Widget" none 2 50 100].map (renderItemRow
          ([["Description", "Amount"],
            ["\x7b\x7bitem_name\x7d\x7d", "\x7b\x7bitem_amount\x7d\x7d"]].getD 1 []))) ∧
      ([Item.mk "Widget" none 2 50 100].map (renderItemRow
        ([["Description", "Amount"],
          ["\x7b\x7bitem_name\x7d\x7d", "\x7b\x7bitem_amount\x7d\x7d"]].getD 1 []))).length =
        [Item.mk "Widget" none 2 50 100].length :=
  c5_item_row_expansion _ _ 1 (by decide)

/-- C3 counterexample: in a table detected as item bearing, rendering an
invoice with one item leaves the literal template row with its item
tokens in place as a non data row above the generated row, contradicting
the claim that the template row never remains. -/
theorem c3_counterexample :
    processTable (fun _ => none) [Item.mk "Widget" none 2 50 100]
      [["Description", "Amount"],
       ["\x7b\x7bitem_name\x7d\x7d", "\x7b\x7bitem_amount\x7d\x7d"]] =
      [["Description", "Amount"],
       ["\x7b\x7bitem_name\x7d\x7d", "\x7b\x7bitem_amount\x7d\x7d"],
       ["Widget", "$100.00"]] := by with_unfolding_all rfl

/-- C3 amended: after rendering, an item bearing table contains exactly
one generated item row per invoice item appended after the template row;
the literal template row remains in place unchanged, and with no items
the table is left entirely unchanged. -/
theorem c3_amended_row_counts (rows : List (List String)) (items : List Item) (idx : Nat)
    (hidx : idx < rows.length) :
    (items = [] → process_table_rows rows items idx = rows) ∧
      (items ≠ [] →
        process_table_rows rows items idx =
            rows.take (idx + 1) ++ items.map (renderItemRow (rows.getD idx [])) ∧
          (process_table_rows rows items idx).getD idx [] = rows.getD idx []) := by
  constructor
  · intro hi
    unfold process_table_rows
    rw [if_pos (Or.inl hi)]
  · intro hi
    have heq : process_table_rows rows items idx =
        rows.take (idx + 1) ++ items.map (renderItemRow (rows.getD idx [])) := by
      unfold process_table_rows
      rw [if_neg (by push_neg; exact ⟨hi, by omega⟩)]
    refine ⟨heq, ?_⟩
    rw [heq]
    rw [List.getD_eq_getD_get?, List.getD_eq_getD_get?]
    rw [List.get?_append (by simp; omega)]
    rw [List.get?_take (by omega)]

/-- C3 amended witness: the concrete instantiation of the amended row
count statement at a two row table and a single item. -/
theorem c3_amended_witness :
    ([Item.mk "Widget" none 2 50 100] = ([] : List Item) →
      process_table_rows [["Description", "Amount"],
          ["\x7b\x7bitem_name\x7d\x7d", "\x7b\x7bitem_amount\x7d\x7d"]]
        [Item.mk "Widget" none 2 50 100] 1 =
        [["Description", "Amount"],
          ["\x7b\x7bitem_name\x7d\x7d", "\x7b\x7bitem_amount\x7d\x7d"]]) ∧
    ([Item.mk "Widget" none 2 50 100] ≠ ([] : List Item) →
      process_table_rows [["Description", "Amount"],
          ["\x7b\x7bitem_name\x7d\x7d", "\x7b\x7bitem_amount\x7d\x7d"]]
        [Item.mk "Widget" none 2 50 100] 1 =
          [["Description", "Amount"],
            ["\x7b\x7bitem_name\x7d\x7d", "\x7b\x7bitem_amount\x7d\x7d"]].take 2 ++
            [Item.mk "Widget" none 2 50 100].map (renderItemRow
              ([["Description", "Amount"],
                ["\x7b\x7bitem_name\x7d\x7d", "\x7b\x7bitem_amount\x7d\x7d"]].getD 1 [])) ∧
        (process_table_rows [["Description", "Amount"],
            ["\x7b\x7bitem_name\x7d\x7d", "\x7b\x7bitem_amount\x7d\x7d"]]
          [Item.mk "Widget" none 2 50 100] 1).getD 1 [] =
          [["Description", "Amount"],
            ["\x7b\x7bitem_name\x7d\x7d", "\x7b\x7bitem_amount\x7d\x7d"]].getD 1 []) :=
  c3_amended_row_counts _ _ 1 (by decide)

/-- C10: in a table detected as item bearing, the rows up to and
including the template row are left byte for byte unchanged, the
generated rows are produced only through the item scoped mapping, and
that mapping holds no invoice level keys such as total or client_name,
so invoice level tokens are never resolved inside an item bearing
table. -/
theorem c10_item_table_frame (invLk : String → Option String) (items : List Item)
    (tbl : List (List String)) (idx : Nat) (hdet : findItemRowIdx tbl = some idx) :
    (processTable invLk items tbl).take (idx + 1) = tbl.take (idx + 1) ∧
      (items ≠ [] → (processTable invLk items tbl).drop (idx + 1) =
        items.map (renderItemRow (tbl.getD idx []))) ∧
      (∀ it : Item, itemLookup it "total" = none ∧ itemLookup it "client_name" = none) := by
  have hidx : idx < tbl.length := findItemRowIdx_lt tbl idx hdet
  have hlen : (tbl.take (idx + 1)).length = idx + 1 := by
    simp
    omega
  unfold processTable
  rw [hdet]
  simp only []
  refine ⟨?_, ?_, ?_⟩
  · unfold process_table_rows
    by_cases hi : items = []
    · rw [if_pos (Or.inl hi)]
    · rw [if_neg (by push_neg; exact ⟨hi, by omega⟩)]
      rw [List.take_left' hlen]
  · intro hi
    unfold process_table_rows
    rw [if_neg (by push_neg; exact ⟨hi, by omega⟩)]
    rw [List.drop_left' hlen]
  · intro it
    exact ⟨rfl, rfl⟩

/-- C10 witness: concrete instantiation on a table whose detected item
template row is row one. -/
theorem c10_witness :
    (processTable (fun n => if n = "total" then some "110" else none)
        [Item.mk "Widget" none 2 50 100]
        [["Header", "\x7b\x7btotal\x7d\x7d"],
         ["\x7b\x7bitem_name\x7d\x7d", "\x7b\x7bitem_amount\x7d\x7d"]]).take 2 =
      [["Header", "\x7b\x7btotal\x7d\x7d"],
       ["\x7b\x7bitem_name\x7d\x7d", "\x7b\x7bitem_amount\x7d\x7d"]].take 2 ∧
    ([Item.mk "Widget" none 2 50 100] ≠ ([] : List Item) →
      (processTable (fun n => if n = "total" then some "110" else none)
          [Item.mk "Widget" none 2 50 100]
          [["Header", "\x7b\x7btotal\x7d\x7d"],
           ["\x7b\x7bitem_name\x7d\x7d", "\x7b\x7bitem_amount\x7d\x7d"]]).drop 2 =
        [Item.mk "Widget" none 2 50 100].map (renderItemRow
          ([["Header", "\x7b\x7btotal\x7d\x7d"],
            ["\x7b\x7bitem_name\x7d\x7d", "\x7b\x7bitem_amount\x7d\x7d"]].getD 1 []))) ∧
    (∀ it : Item, itemLookup it "total" = none ∧ itemLookup it "client_name" = none) :=
  c10_item_table_frame _ _ _ 1 (by decide)

/-- C7 witness: a template with one known and one unknown token renders
the unknown token verbatim while substitution proceeds around it. -/
theorem c7_witness :
    replace_template_variables ("Total: " ++ "\x7b\x7b" ++ "unknownField" ++ "\x7d\x7d" ++ "")
        (fun n => if n = "total" then some "110" else none) =
      "Total: " ++ "\x7b\x7b" ++ "unknownField" ++ "\x7d\x7d" ++
        replace_template_variables ""
          (fun n => if n = "total" then some "110" else none) :=
  c7_unknown_token_left_verbatim _ "Total: " "unknownField" ""
    (by decide) (by decide) (by decide) (by decide)

/-- C9: the format name freshbooks_csv is accepted as supported, and since
the dispatch chain has no arm for it, exporting any invoice list with it
falls through to the final else arm and returns exactly the generic CSV
output, whatever the clock strings are. -/
theorem c9_freshbooks_is_generic :
    "freshbooks_csv" ∈ supported_formats ∧
      ∀ (nowDate nowTime : String) (invoices : List Invoice),
        export_invoices nowDate nowTime invoices "freshbooks_csv" =
          export_invoices nowDate nowTime invoices "generic_csv" := by
  refine ⟨by decide, ?_⟩
  intro nowDate nowTime invoices
  rfl

/-- C2 counterexample: the QuickBooks IIF output embeds the clock strings
in its HDR line, so two calls with identical invoice list and format but
different clock values return different text, refuting byte for byte
determinism across calls for the quickbooks_iif format. -/
theorem c2_counterexample :
    export_invoices "01/01/2024" "10:00:00"
        [Invoice.mk "INV-1" "Acme" "billing" "1 Road" "Metro" "US" "2024-01-15" "2024-02-14"
          100 none none 110 "sent" none (ItemsField.lit [])] "quickbooks_iif" ≠
      export_invoices "01/02/2024" "10:00:00"
        [Invoice.mk "INV-1" "Acme" "billing" "1 Road" "Metro" "US" "2024-01-15" "2024-02-14"
          100 none none 110 "sent" none (ItemsField.lit [])] "quickbooks_iif" := by
  with_unfolding_all decide

/-- C2 amended: export output is independent of the clock, hence byte for
byte deterministic in the invoice list and format, for every format
except quickbooks_iif, whose HDR line embeds the current date and time. -/
theorem c2_amended_determinism (format_type : String) (hne : format_type ≠ "quickbooks_iif")
    (nowDate nowTime nowDate2 nowTime2 : String) (invoices : List Invoice) :
    export_invoices nowDate nowTime invoices format_type =
      export_invoices nowDate2 nowTime2 invoices format_type := by
  unfold export_invoices
  by_cases h1 : format_type ∉ supported_formats
  · rw [if_pos h1, if_pos h1]
  · rw [if_neg h1, if_neg h1, if_neg hne, if_neg hne]

/-- C2 amended witness: concrete instantiation at the sage format with two
different clock values. -/
theorem c2_amended_witness :
    export_invoices "01/01/2024" "10:00:00" [] "sage_csv" =
      export_invoices "02/02/2025" "23:59:59" [] "sage_csv" :=
  c2_amended_determinism "sage_csv" (by decide) "01/01/2024" "10:00:00" "02/02/2025" "23:59:59" []

/-- C4 counterexample: the spec example invoice with subtotal 100, vat 10
and total 110 carries one item of amount 100; the only split value is
-100 while the negated transaction amount is -110, so the transaction
and its splits do not net to zero. -/
theorem c4_counterexample :
    (([Item.mk "Widget" none 2 50 100].map iifSplitValue).sum ≠
      -(iifTrnsValue (Invoice.mk "INV-1" "Acme" "billing" "1 Road" "Metro" "US"
        "2024-01-15" "2024-02-14" 100 none (some 10) 110 "sent" none
        (ItemsField.lit [Item.mk "Widget" none 2 50 100])))) := by
  with_unfolding_all decide

/-- C4 amended: the sum of the emitted split values equals the negation of
the sum of the item amounts, and it equals the negation of the emitted
transaction amount exactly when the invoice total equals that sum; the
code copies the total field as the transaction amount without relating
it to the items. -/
theorem c4_amended_split_balance (items : List Item) (inv : Invoice) :
    (items.map iifSplitValue).sum = -((items.map Item.amount).sum) ∧
      ((items.map Item.amount).sum = inv.total →
        (items.map iifSplitValue).sum = -(iifTrnsValue inv)) := by
  have h : (items.map iifSplitValue).sum = -((items.map Item.amount).sum) := by
    induction items with
    | nil => simp
    | cons it t ih =>
      simp only [List.map_cons, List.sum_cons, iifSplitValue, ih, neg_add]
  exact ⟨h, fun he => by rw [h, he]; rfl⟩

/-- C4 amended witness: with a single item of amount 100 and total 100 the
splits net the transaction to zero. -/
theorem c4_amended_witness :
    (([Item.mk "Svc" none 1 100 100].map iifSplitValue).sum =
      -(iifTrnsValue (Invoice.mk "INV-2" "Acme" "billing" "1 Road" "Metro" "US"
        "2024-01-15" "2024-02-14" 100 none none 100 "sent" none
        (ItemsField.lit [Item.mk "Svc" none 1 100 100])))) :=
  (c4_amended_split_balance [Item.mk "Svc" none 1 100 100]
    (Invoice.mk "INV-2" "Acme" "billing" "1 Road" "Metro" "US"
      "2024-01-15" "2024-02-14" 100 none none 100 "sent" none
      (ItemsField.lit [Item.mk "Svc" none 1 100 100]))).2 (by with_unfolding_all decide)

lemma mapE_error_of_mem {α β : Type} (f : α → Except String β) :
    ∀ (xs : List α) (x : α), x ∈ xs → (∃ e, f x = .error e) →
      ∃ e2, mapE f xs = .error e2 := by
  intro xs
  induction xs with
  | nil => intro x hx; simp at hx
  | cons y t ih =>
    intro x hx he
    obtain ⟨e, hfe⟩ := he
    cases hfy : f y with
    | error e2 => exact ⟨e2, by unfold mapE; rw [hfy]; rfl⟩
    | ok v =>
      rcases List.mem_cons.mp hx with rfl | hxt
      · rw [hfy] at hfe
        cases hfe
      · obtain ⟨e2, he2⟩ := ih x hxt ⟨e, hfe⟩
        refine ⟨e2, ?_⟩
        unfold mapE
        rw [hfy, bind_ok_ex, he2]
        rfl

lemma bind_err_of {α : Type} (m : Except String α) {β : Type} (k : α → Except String β)
    (h : ∃ e, m = Except.error e) : ∃ e2, (m >>= k) = .error e2 := by
  obtain ⟨e, he⟩ := h
  exact ⟨e, by rw [he]; rfl⟩

lemma parseDateE_err (s : String) (h : parseDate (replaceZ s.data) = none) :
    parseDateE s = .error ("Invalid isoformat string: '" ++ String.mk (replaceZ s.data) ++ "'") := by
  unfold parseDateE
  rw [h]

lemma sageRow_err (inv : Invoice) (h : parseDate (replaceZ inv.invoiceDate.data) = none) :
    ∃ e, sageRow inv = .error e :=
  ⟨"Invalid isoformat string: '" ++ String.mk (replaceZ inv.invoiceDate.data) ++ "'", by
    unfold sageRow
    rw [parseDateE_err _ h]
    rfl⟩

lemma genericRow_err (inv : Invoice) (h : parseDate (replaceZ inv.invoiceDate.data) = none) :
    ∃ e, genericRow inv = .error e :=
  ⟨"Invalid isoformat string: '" ++ String.mk (replaceZ inv.invoiceDate.data) ++ "'", by
    unfold genericRow
    rw [parseDateE_err _ h]
    rfl⟩

lemma iifInvoiceLines_err (inv : Invoice)
    (h : parseDate (replaceZ inv.invoiceDate.data) = none) :
    ∃ e, iifInvoiceLines inv = .error e :=
  ⟨"Invalid isoformat string: '" ++ String.mk (replaceZ inv.invoiceDate.data) ++ "'", by
    unfold iifInvoiceLines
    rw [parseDateE_err _ h]
    rfl⟩

lemma xeroRow_err (inv : Invoice) (it : Item)
    (h : parseDate (replaceZ inv.invoiceDate.data) = none) :
    ∃ e, xeroRow inv it = .error e :=
  ⟨"Invalid isoformat string: '" ++ String.mk (replaceZ inv.invoiceDate.data) ++ "'", by
    unfold xeroRow
    rw [parseDateE_err _ h]
    rfl⟩

lemma waveRow_err (inv : Invoice) (i : Nat) (it : Item)
    (h : parseDate (replaceZ inv.invoiceDate.data) = none) :
    ∃ e, waveRow inv i it = .error e :=
  ⟨"Invalid isoformat string: '" ++ String.mk (replaceZ inv.invoiceDate.data) ++ "'", by
    unfold waveRow
    rw [parseDateE_err _ h]
    rfl⟩

lemma xeroInvoiceRows_err (inv : Invoice) (it : Item) (its : List Item)
    (hitems : getItems inv = .ok (it :: its))
    (h : parseDate (replaceZ inv.invoiceDate.data) = none) :
    ∃ e, xeroInvoiceRows inv = .error e := by
  unfold xeroInvoiceRows
  rw [hitems, bind_ok_ex]
  exact mapE_error_of_mem _ (it :: its) it (List.mem_cons_self it its) (xeroRow_err inv it h)

lemma waveInvoiceRows_err (inv : Invoice) (it : Item) (its : List Item)
    (hitems : getItems inv = .ok (it :: its))
    (h : parseDate (replaceZ inv.invoiceDate.data) = none) :
    ∃ e, waveInvoiceRows inv = .error e := by
  unfold waveInvoiceRows
  rw [hitems, bind_ok_ex]
  exact mapE_error_of_mem _ (enumFrom 0 (it :: its)) (0, it) (by
    rw [show enumFrom 0 (it :: its) = (0, it) :: enumFrom 1 its from rfl]
    exact List.mem_cons_self _ _) (waveRow_err inv 0 it h)

/-- C1 counterexample: a batch of two invoices where the first carries the
malformed date garbage and the second is well formed; Sage export fails
for the entire call with the ValueError message and emits no rows at
all, so the sibling invoice is lost rather than exported. -/
theorem c1_counterexample :
    export_invoices "01/01/2024" "10:00:00"
        [Invoice.mk "INV-9" "Bad" "billing" "1 Road" "Metro" "US" "garbage" "2024-02-14"
          100 none none 100 "sent" none (ItemsField.lit [Item.mk "Svc" none 1 100 100]),
         Invoice.mk "INV-1" "Acme" "billing" "1 Road" "Metro" "US" "2024-01-15" "2024-02-14"
          100 none none 100 "sent" none (ItemsField.lit [Item.mk "Svc" none 1 100 100])]
        "sage_csv" =
      .error "Invalid isoformat string: 'garbage'" := by
  with_unfolding_all decide

/-- C1 amended: a malformed invoiceDate aborts the whole batch export
with an error and no output; per invoice isolation does not happen. The
quickbooks, sage, freshbooks and generic mappers render the dates once
per invoice, so any malformed date invoice triggers the failure; the
xero and wave mappers render dates only inside the per item loop, so
there the malformed date invoice must carry a nonempty normalized items
list. -/
theorem c1_amended_all_or_nothing (nowDate nowTime : String) (invoices : List Invoice)
    (format_type : String) (hfmt : format_type ∈ supported_formats)
    (hbad : ∃ inv ∈ invoices, parseDate (replaceZ inv.invoiceDate.data) = none ∧
      (format_type = "xero_csv" ∨ format_type = "wave_csv" →
        ∃ it its, getItems inv = .ok (it :: its))) :
    ∃ e, export_invoices nowDate nowTime invoices format_type = .error e := by
  obtain ⟨inv, hmem, hpd, hx⟩ := hbad
  simp only [supported_formats, List.mem_cons, List.mem_singleton] at hfmt
  rcases hfmt with rfl | rfl | rfl | rfl | rfl | hfmt
  · rw [show export_invoices nowDate nowTime invoices "quickbooks_iif" =
      export_to_quickbooks_iif nowDate nowTime invoices from rfl]
    unfold export_to_quickbooks_iif
    exact bind_err_of _ _
      (mapE_error_of_mem _ invoices inv hmem (iifInvoiceLines_err inv hpd))
  · obtain ⟨it, its, hitems⟩ := hx (Or.inl rfl)
    rw [show export_invoices nowDate nowTime invoices "xero_csv" =
      export_to_xero_csv invoices from rfl]
    unfold export_to_xero_csv
    exact bind_err_of _ _
      (mapE_error_of_mem _ invoices inv hmem (xeroInvoiceRows_err inv it its hitems hpd))
  · rw [show export_invoices nowDate nowTime invoices "sage_csv" =
      export_to_sage_csv invoices from rfl]
    unfold export_to_sage_csv
    exact bind_err_of _ _ (mapE_error_of_mem _ invoices inv hmem (sageRow_err inv hpd))
  · rw [show export_invoices nowDate nowTime invoices "freshbooks_csv" =
      export_to_generic_csv invoices from rfl]
    unfold export_to_generic_csv
    exact bind_err_of _ _ (mapE_error_of_mem _ invoices inv hmem (genericRow_err inv hpd))
  · obtain ⟨it, its, hitems⟩ := hx (Or.inr rfl)
    rw [show export_invoices nowDate nowTime invoices "wave_csv" =
      export_to_wave_csv invoices from rfl]
    unfold export_to_wave_csv
    exact bind_err_of _ _
      (mapE_error_of_mem _ invoices inv hmem (waveInvoiceRows_err inv it its hitems hpd))
  · rcases hfmt with rfl | h
    · rw [show export_invoices nowDate nowTime invoices "generic_csv" =
        export_to_generic_csv invoices from rfl]
      unfold export_to_generic_csv
      exact bind_err_of _ _ (mapE_error_of_mem _ invoices inv hmem (genericRow_err inv hpd))
    · simp at h

/-- C1 amended witness: the two invoice batch with the garbage date fails
as a whole for the wave format. -/
theorem c1_amended_witness :
    ∃ e, export_invoices "01/01/2024" "10:00:00"
        [Invoice.mk "INV-9" "Bad" "billing" "1 Road" "Metro" "US" "garbage" "2024-02-14"
          100 none none 100 "sent" none (ItemsField.lit [Item.mk "Svc" none 1 100 100])]
        "wave_csv" = .error e :=
  c1_amended_all_or_nothing "01/01/2024" "10:00:00" _ "wave_csv" (by decide)
    ⟨Invoice.mk "INV-9" "Bad" "billing" "1 Road" "Metro" "US" "garbage" "2024-02-14"
        100 none none 100 "sent" none (ItemsField.lit [Item.mk "Svc" none 1 100 100]),
      List.mem_singleton.mpr rfl, by decide,
      fun _ => ⟨Item.mk "Svc" none 1 100 100, [], rfl⟩⟩

/-! ## Wave export total field (C6) and items encoding round trip (C8) -/

lemma numStr_ne_empty (q : Rat) : numStr q ≠ "" := by
  obtain ⟨c, t, hct, h⟩ := numStr_headE q
  intro he
  rw [he, show ("" : String).data = [] from rfl] at hct
  exact List.cons_ne_nil c t hct.symm

lemma bind_eq_ok {α β : Type} (m : Except String α) (f : α → Except String β) (b : β)
    (h : m >>= f = .ok b) : ∃ a, m = .ok a ∧ f a = .ok b := by
  cases m with
  | error e => rw [bind_error_ex] at h; exact Except.noConfusion h
  | ok a => exact ⟨a, rfl, h⟩

lemma enumFrom_length {α : Type} (i : Nat) (l : List α) :
    (enumFrom i l).length = l.length := by
  induction l generalizing i with
  | nil => rfl
  | cons x xs ih => simp only [enumFrom, List.length_cons, ih]

lemma enumFrom_get {α : Type} (i : Nat) (l : List α) (j : Nat) :
    (enumFrom i l).get? j = (l.get? j).map (fun x => (i + j, x)) := by
  induction l generalizing i j with
  | nil => simp [enumFrom]
  | cons x xs ih =>
    cases j with
    | zero => simp [enumFrom]
    | succ j2 =>
      have he : i + 1 + j2 = i + (j2 + 1) := by omega
      simp only [enumFrom, List.get?_cons_succ, ih (i + 1) j2, he]

lemma mapE_ok_get {α β : Type} (f : α → Except String β) (xs : List α) (ys : List β)
    (h : mapE f xs = .ok ys) :
    ys.length = xs.length ∧
      ∀ j x, xs.get? j = some x → ∃ y, ys.get? j = some y ∧ f x = .ok y := by
  induction xs generalizing ys with
  | nil =>
    simp only [mapE] at h
    injection h with h2
    subst h2
    exact ⟨rfl, fun j x hx => by simp at hx⟩
  | cons x t ih =>
    simp only [mapE] at h
    obtain ⟨y, hy, h2⟩ := bind_eq_ok _ _ _ h
    obtain ⟨ys2, hys2, h3⟩ := bind_eq_ok _ _ _ h2
    injection h3 with h3
    subst h3
    obtain ⟨hl, hp⟩ := ih ys2 hys2
    refine ⟨by simp [hl], ?_⟩
    intro j z hz
    cases j with
    | zero =>
      rw [List.get?_cons_zero] at hz
      injection hz with hz
      subst hz
      exact ⟨y, rfl, hy⟩
    | succ j2 =>
      rw [List.get?_cons_succ] at hz
      rw [List.get?_cons_succ]
      exact hp j2 z hz

lemma waveRow_total (inv : Invoice) (i : Nat) (it : Item) (row : List String)
    (h : waveRow inv i it = .ok row) :
    row.getD 12 "" = if i = 0 then numStr inv.total else "" := by
  unfold waveRow at h
  cases hd : parseDateE inv.invoiceDate with
  | error e => rw [hd, bind_error_ex] at h; exact Except.noConfusion h
  | ok d =>
    rw [hd, bind_ok_ex] at h
    cases hdd : parseDateE inv.dueDate with
    | error e => rw [hdd, bind_error_ex] at h; exact Except.noConfusion h
    | ok dd =>
      rw [hdd, bind_ok_ex] at h
      injection h with h2
      subst h2
      rfl

/-- C6: in the Wave line item detail export, an invoice contributes one
row per normalized item, and among those rows the invoice total field at
column 12 is nonempty exactly on the first row: it is blank on every
subsequent row of the same invoice. -/
theorem c6_wave_total_on_first_row_only (inv : Invoice) (items : List Item)
    (rows : List (List String)) (hit : getItems inv = .ok items)
    (hrows : waveInvoiceRows inv = .ok rows) :
    rows.length = items.length ∧
      ∀ j, j < rows.length → ((rows.getD j []).getD 12 "" = "" ↔ j ≠ 0) := by
  unfold waveInvoiceRows at hrows
  rw [hit, bind_ok_ex] at hrows
  obtain ⟨hl, hp⟩ := mapE_ok_get _ _ _ hrows
  have hlen : rows.length = items.length := by rw [hl, enumFrom_length]
  refine ⟨hlen, ?_⟩
  intro j hj
  have hj2 : j < items.length := hlen ▸ hj
  have hg : items.get? j = some (items.get ⟨j, hj2⟩) := List.get?_eq_get hj2
  have he : (enumFrom 0 items).get? j = some (0 + j, items.get ⟨j, hj2⟩) := by
    rw [enumFrom_get, hg]
    rfl
  obtain ⟨row, hrow, hf⟩ := hp j _ he
  have hf2 : waveRow inv (0 + j) (items.get ⟨j, hj2⟩) = .ok row := hf
  have hgd : rows.getD j [] = row := by
    rw [List.getD_eq_getD_get?, hrow]
    rfl
  have ht : row.getD 12 "" = if 0 + j = 0 then numStr inv.total else "" :=
    waveRow_total inv (0 + j) (items.get ⟨j, hj2⟩) row hf2
  rw [hgd, ht]
  constructor
  · intro hcond hj0
    subst hj0
    rw [if_pos rfl] at hcond
    exact numStr_ne_empty inv.total hcond
  · intro hne
    rw [if_neg (by omega)]

theorem c6_witness :
    getItems (Invoice.mk "INV-1" "Acme" "a@b.c" "1 Road" "Town" "US" "2024-01-02"
        "2024-02-02" 5 none none 5 "draft" none
        (ItemsField.lit [Item.mk "A" none 1 2 2, Item.mk "B" none 1 3 3])) =
      .ok [Item.mk "A" none 1 2 2, Item.mk "B" none 1 3 3] ∧
    ([["Acme", "a@b.c", "INV-1", "2024-01-02", "2024-02-02", "A", "", "1", "2.00",
        "2.00", "", "", "5", "Draft"],
      ["Acme", "a@b.c", "INV-1", "2024-01-02", "2024-02-02", "B", "", "1", "3.00",
        "3.00", "", "", "", "Draft"]] : List (List String)).length =
      ([Item.mk "A" none 1 2 2, Item.mk "B" none 1 3 3] : List Item).length ∧
    ∀ j, j < ([["Acme", "a@b.c", "INV-1", "2024-01-02", "2024-02-02", "A", "", "1",
        "2.00", "2.00", "", "", "5", "Draft"],
      ["Acme", "a@b.c", "INV-1", "2024-01-02", "2024-02-02", "B", "", "1", "3.00",
        "3.00", "", "", "", "Draft"]] : List (List String)).length →
      ((([["Acme", "a@b.c", "INV-1", "2024-01-02", "2024-02-02", "A", "", "1",
        "2.00", "2.00", "", "", "5", "Draft"],
      ["Acme", "a@b.c", "INV-1", "2024-01-02", "2024-02-02", "B", "", "1", "3.00",
        "3.00", "", "", "", "Draft"]] : List (List String)).getD j []).getD 12 "" = ""
        ↔ j ≠ 0) :=
  ⟨rfl,
    c6_wave_total_on_first_row_only
      (Invoice.mk "INV-1" "Acme" "a@b.c" "1 Road" "Town" "US" "2024-01-02"
        "2024-02-02" 5 none none 5 "draft" none
        (ItemsField.lit [Item.mk "A" none 1 2 2, Item.mk "B" none 1 3 3]))
      [Item.mk "A" none 1 2 2, Item.mk "B" none 1 3 3]
      [["Acme", "a@b.c", "INV-1", "2024-01-02", "2024-02-02", "A", "", "1", "2.00",
        "2.00", "", "", "5", "Draft"],
       ["Acme", "a@b.c", "INV-1", "2024-01-02", "2024-02-02", "B", "", "1", "3.00",
        "3.00", "", "", "", "Draft"]]
      rfl (by with_unfolding_all rfl)⟩

/-- Invoice with its items field replaced, the frame shared by the two
representations the round trip compares. -/
def setItems (inv : Invoice) (f : ItemsField) : Invoice :=
  { inv with items := f }

lemma getItems_setItems_lit (base : Invoice) (l : List Item) :
    getItems (setItems base (ItemsField.lit l)) = .ok l := rfl

lemma getItems_setItems_str (base : Invoice) (l : List Item) (hwf : itemsWF l) :
    getItems (setItems base (ItemsField.str (dumpsItems l))) = .ok l :=
  parseItemsJson_dumps l hwf

lemma mapE_singleton_congr {α β : Type} (f : α → Except String β) (a b : α)
    (h : f a = f b) : mapE f [a] = mapE f [b] := by
  simp only [mapE, h]

lemma iifInvoiceLines_setItems (base : Invoice) (l : List Item) (hwf : itemsWF l) :
    iifInvoiceLines (setItems base (ItemsField.lit l)) =
      iifInvoiceLines (setItems base (ItemsField.str (dumpsItems l))) := by
  unfold iifInvoiceLines
  rw [getItems_setItems_lit, getItems_setItems_str base l hwf]
  rfl

lemma xeroInvoiceRows_setItems (base : Invoice) (l : List Item) (hwf : itemsWF l) :
    xeroInvoiceRows (setItems base (ItemsField.lit l)) =
      xeroInvoiceRows (setItems base (ItemsField.str (dumpsItems l))) := by
  unfold xeroInvoiceRows
  rw [getItems_setItems_lit, getItems_setItems_str base l hwf]
  rfl

lemma waveInvoiceRows_setItems (base : Invoice) (l : List Item) (hwf : itemsWF l) :
    waveInvoiceRows (setItems base (ItemsField.lit l)) =
      waveInvoiceRows (setItems base (ItemsField.str (dumpsItems l))) := by
  unfold waveInvoiceRows
  rw [getItems_setItems_lit, getItems_setItems_str base l hwf]
  rfl

/-- C8: for every invoice, every well formed item list and every export
format, supplying the items as a literal sequence and as the json.dumps
string of that sequence produces identical output, errors included. -/
theorem c8_items_encoding_round_trip (base : Invoice) (l : List Item) (hwf : itemsWF l)
    (nowDate nowTime format_type : String) :
    export_invoices nowDate nowTime [setItems base (ItemsField.lit l)] format_type =
      export_invoices nowDate nowTime [setItems base (ItemsField.str (dumpsItems l))]
        format_type := by
  unfold export_invoices
  by_cases h0 : format_type ∉ supported_formats
  · rw [if_pos h0, if_pos h0]
  · rw [if_neg h0, if_neg h0]
    by_cases h1 : format_type = "quickbooks_iif"
    · rw [if_pos h1, if_pos h1]
      unfold export_to_quickbooks_iif
      rw [mapE_singleton_congr iifInvoiceLines _ _ (iifInvoiceLines_setItems base l hwf)]
    · rw [if_neg h1, if_neg h1]
      by_cases h2 : format_type = "xero_csv"
      · rw [if_pos h2, if_pos h2]
        unfold export_to_xero_csv
        rw [mapE_singleton_congr xeroInvoiceRows _ _ (xeroInvoiceRows_setItems base l hwf)]
      · rw [if_neg h2, if_neg h2]
        by_cases h3 : format_type = "sage_csv"
        · rw [if_pos h3, if_pos h3]
          rfl
        · rw [if_neg h3, if_neg h3]
          by_cases h4 : format_type = "wave_csv"
          · rw [if_pos h4, if_pos h4]
            unfold export_to_wave_csv
            rw [mapE_singleton_congr waveInvoiceRows _ _ (waveInvoiceRows_setItems base l hwf)]
          · rw [if_neg h4, if_neg h4]
            by_cases h5 : format_type = "generic_csv"
            · rw [if_pos h5, if_pos h5]
              rfl
            · rw [if_neg h5, if_neg h5]
              rfl

theorem c8_witness :
    itemsWF [Item.mk "Widget" none 2 50 100] ∧
      export_invoices "2024-01-01" "09:00:00"
          [setItems (Invoice.mk "INV-2" "Beta" "b@c.d" "2 Road" "City" "US"
            "2024-01-03" "2024-02-03" 100 none none 100 "sent" none
            (ItemsField.lit []))
            (ItemsField.lit [Item.mk "Widget" none 2 50 100])] "quickbooks_iif" =
        export_invoices "2024-01-01" "09:00:00"
          [setItems (Invoice.mk "INV-2" "Beta" "b@c.d" "2 Road" "City" "US"
            "2024-01-03" "2024-02-03" 100 none none 100 "sent" none
            (ItemsField.lit []))
            (ItemsField.str (dumpsItems [Item.mk "Widget" none 2 50 100]))]
          "quickbooks_iif" :=
  ⟨by with_unfolding_all decide,
    c8_items_encoding_round_trip
      (Invoice.mk "INV-2" "Beta" "b@c.d" "2 Road" "City" "US" "2024-01-03"
        "2024-02-03" 100 none none 100 "sent" none (ItemsField.lit []))
      [Item.mk "Widget" none 2 50 100] (by with_unfolding_all decide)
      "2024-01-01" "09:00:00" "quickbooks_iif"⟩
